import Mathlib

/-
Verification development for the uthreads user-level thread library
(Thread.hpp, ThreadsCollectionManager.hpp, uthreads.cpp).

Shallow embedding notes:
* Thread ids are `Int` (the source uses `int`, with -1 as the "no thread"
  sentinel for the mutex holder).
* `std::map<int, Thread>` is embedded as its key set (`alive`) together with
  the one thread field the specification talks about, the `quantums` counter,
  kept as a total function `Int → Nat` (values at dead ids are stale junk,
  exactly as erased map entries are gone; sums are always taken over `alive`).
  The `env` (jmp_buf) and `stack` fields of `Thread` hold machine contexts and
  raw memory and are not representable in a shallow embedding; no claim is
  about them.
* `std::set<int>` is embedded as `Finset Int`; `set.begin()` on a non-empty
  set is its minimum (`Finset.min'`), matching the sorted iteration order.
* `std::list<int>` (the ready queue) is a `List Int`; `list::remove` removes
  every occurrence, hence `List.filter`.
* `sigprocmask` on the one-signal set {SIGVTALRM} is embedded as setting the
  boolean `masked` field of the library state.
* `sigsetjmp`/`siglongjmp` context switching is embedded by its effect on the
  library state: `switch_threads` yields the state at the instant control is
  transferred to the next thread.  Popping the ready queue when it is empty
  is undefined behaviour in the source (`std::list::front` on an empty list),
  embedded as `none`.
-/

def FAILURE : Int := -1

def SUCCESS : Int := 0

/-- Modelled from the spec: the header `uthreads.h` is not part of the given
sources; it defines the constant `MAX_THREAD_NUM`, "the fixed upper bound on
concurrent threads, including main".  Its concrete value is irrelevant to
every claim; the customary value 100 is used. -/
def MAX_THREAD_NUM : Int := 100

/-- The manager state of `ThreadsCollectionManager.hpp` (the `threads` map is
embedded as `alive` plus the `quantums` field map, see the header comment). -/
structure ThreadsCollectionManager where
  curr_thread_id : Int
  alive : Finset Int
  quantums : Int → Nat
  readyQueue : List Int
  waiting_fot_mutex : Finset Int
  available_ids : Finset Int
  blocked : Finset Int

namespace ThreadsCollectionManager

/-- The constructor: current id 0, available ids `[1, max_threads)`, and the
main thread record (id 0, `quantums = 1` per the default `Thread()`
constructor) inserted into the map. -/
def initialManager : ThreadsCollectionManager :=
  { curr_thread_id := 0
    alive := {0}
    quantums := Function.update (fun _ => 0) 0 1
    readyQueue := []
    waiting_fot_mutex := ∅
    available_ids := Finset.Icc 1 (MAX_THREAD_NUM - 1)
    blocked := ∅ }

/-- `create_thread`: if no id is available fail, otherwise take the lowest
available id, insert a fresh record (`quantums = 0` per the `Thread`
constructor), append the id to the ready queue and return it. -/
def create_thread (c : ThreadsCollectionManager) : ThreadsCollectionManager × Int :=
  if h : c.available_ids.Nonempty then
    let new_id := c.available_ids.min' h
    ({ c with
        available_ids := c.available_ids.erase new_id
        alive := insert new_id c.alive
        quantums := Function.update c.quantums new_id 0
        readyQueue := c.readyQueue ++ [new_id] }, new_id)
  else (c, FAILURE)

/-- `terminate`: erase the id from the map, the ready queue, the waiter set
and the blocked set, and return it to the available ids. -/
def terminate (id : Int) (c : ThreadsCollectionManager) : ThreadsCollectionManager :=
  { c with
      alive := c.alive.erase id
      readyQueue := c.readyQueue.filter (fun x => decide (x ≠ id))
      waiting_fot_mutex := c.waiting_fot_mutex.erase id
      blocked := c.blocked.erase id
      available_ids := insert id c.available_ids }

/-- `set_as_ready`: append to the ready queue unless the id is the current
thread or already in the ready queue, the mutex-waiter set or the blocked
set. -/
def set_as_ready (id : Int) (c : ThreadsCollectionManager) : ThreadsCollectionManager :=
  if c.curr_thread_id ≠ id ∧ id ∉ c.readyQueue ∧ id ∉ c.waiting_fot_mutex ∧ id ∉ c.blocked then
    { c with readyQueue := c.readyQueue ++ [id] }
  else c

/-- `wait_for_mutex`: insert the id into the mutex-waiter set. -/
def wait_for_mutex (id : Int) (c : ThreadsCollectionManager) : ThreadsCollectionManager :=
  { c with waiting_fot_mutex := insert id c.waiting_fot_mutex }

/-- `advance_mutex_line`: no-op if no waiter; otherwise if some waiter is not
blocked, move the minimum such waiter (`set_difference` of sorted sets,
then `begin()`) to the back of the ready queue; if every waiter is blocked,
erase `waiting_fot_mutex.begin()`, the minimum waiter, without enqueuing. -/
def advance_mutex_line (c : ThreadsCollectionManager) : ThreadsCollectionManager :=
  if hw : c.waiting_fot_mutex.Nonempty then
    let waiting_not_blocked := c.waiting_fot_mutex \ c.blocked
    if h : waiting_not_blocked.Nonempty then
      let id := waiting_not_blocked.min' h
      { c with
          readyQueue := c.readyQueue ++ [id]
          waiting_fot_mutex := c.waiting_fot_mutex.erase id }
    else
      { c with waiting_fot_mutex := c.waiting_fot_mutex.erase (c.waiting_fot_mutex.min' hw) }
  else c

/-- `resume`: fail if the id is not in the map; otherwise erase it from the
blocked set and call `set_as_ready`. -/
def resume (id : Int) (c : ThreadsCollectionManager) : Int × ThreadsCollectionManager :=
  if id ∈ c.alive then
    (SUCCESS, set_as_ready id { c with blocked := c.blocked.erase id })
  else (FAILURE, c)

/-- `set_next_thread_as_running`: pop the front of the ready queue and make it
current.  Calling it with an empty ready queue is `std::list::front` on an
empty list, undefined behaviour, embedded as `none`. -/
def set_next_thread_as_running (c : ThreadsCollectionManager) :
    Option ThreadsCollectionManager :=
  match c.readyQueue with
  | [] => none
  | id_next :: rest => some { c with curr_thread_id := id_next, readyQueue := rest }

/-- `is_someone_waiting`: the ready queue is non-empty. -/
def is_someone_waiting (c : ThreadsCollectionManager) : Prop :=
  c.readyQueue ≠ []

instance (c : ThreadsCollectionManager) : Decidable (is_someone_waiting c) := by
  unfold is_someone_waiting
  infer_instance

/-- `block`: insert the id into the blocked set and remove it from the ready
queue. -/
def block (id : Int) (c : ThreadsCollectionManager) : ThreadsCollectionManager :=
  { c with
      blocked := insert id c.blocked
      readyQueue := c.readyQueue.filter (fun x => decide (x ≠ id)) }

/-- The `get_current_thread().quantums++` idiom of `uthreads.cpp`. -/
def bump_current_quantums (c : ThreadsCollectionManager) : ThreadsCollectionManager :=
  { c with
      quantums :=
        Function.update c.quantums c.curr_thread_id (c.quantums c.curr_thread_id + 1) }

end ThreadsCollectionManager

/-- The `Mutex` struct of `uthreads.cpp`. -/
structure Mutex where
  locked : Bool
  locking_thread : Int

/-- The mutable globals of `uthreads.cpp`: the collection manager, the mutex,
`total_quantums`, and whether SIGVTALRM is currently blocked in the process
signal mask (`masked`). -/
structure LibState where
  mgr : ThreadsCollectionManager
  mutex : Mutex
  total_quantums : Nat
  masked : Bool

/-- `mask_time_signal(SIG_BLOCK)` is `mask_time_signal true`,
`mask_time_signal(SIG_UNBLOCK)` is `mask_time_signal false`. -/
def mask_time_signal (b : Bool) (s : LibState) : LibState :=
  { s with masked := b }

/-- `switch_threads`: increment `total_quantums`, pop the next ready thread as
running, run the post-switch handler, then increment the (new) current
thread's `quantums`; the `siglongjmp` then transfers control.  `none` when the
ready queue is empty (undefined behaviour in the source). -/
def switch_threads (handle_curr_thread : LibState → LibState) (s : LibState) :
    Option LibState :=
  let s1 := { s with total_quantums := s.total_quantums + 1 }
  match ThreadsCollectionManager.set_next_thread_as_running s1.mgr with
  | none => none
  | some c =>
    let s2 := handle_curr_thread { s1 with mgr := c }
    some { s2 with mgr := ThreadsCollectionManager.bump_current_quantums s2.mgr }

/-- `switch_threads_mid_quantum`: re-arms the timer (no modelled state) and
switches. -/
def switch_threads_mid_quantum (handle_curr_thread : LibState → LibState)
    (s : LibState) : Option LibState :=
  switch_threads handle_curr_thread s

/-- `time_sig_handler`: if nobody is ready, bump `total_quantums` and the
running thread's `quantums` and return; otherwise switch, with the post-switch
handler `set_as_ready(previous current id)`. -/
def time_sig_handler (s : LibState) : Option LibState :=
  if ¬ ThreadsCollectionManager.is_someone_waiting s.mgr then
    some { s with
             total_quantums := s.total_quantums + 1
             mgr := ThreadsCollectionManager.bump_current_quantums s.mgr }
  else
    let curr_id := s.mgr.curr_thread_id
    switch_threads
      (fun st => { st with mgr := ThreadsCollectionManager.set_as_ready curr_id st.mgr }) s

/-- Outcome of an API call that may context-switch away or end the process:
`ret code s` is an ordinary return, `switched s` means control was transferred
to another thread (the state is the post-switch state), `exitProcess` is
`std::exit`, `undef` marks the undefined-behaviour path (popping an empty
ready queue). -/
inductive ApiResult where
  | ret : Int → LibState → ApiResult
  | switched : LibState → ApiResult
  | exitProcess : ApiResult
  | undef : ApiResult

/-- `uthread_init`: reject a non-positive quantum, otherwise increment
`total_quantums` (from its zero-initialized value) and succeed.  Timer and
sigaction installation have no modelled state. -/
def uthread_init (quantum_usecs : Int) (s : LibState) : Int × LibState :=
  if quantum_usecs ≤ 0 then (FAILURE, s)
  else (SUCCESS, { s with total_quantums := s.total_quantums + 1 })

/-- The state of the static globals before `uthread_init` runs. -/
def initialLibState : LibState :=
  { mgr := ThreadsCollectionManager.initialManager
    mutex := { locked := false, locking_thread := -1 }
    total_quantums := 0
    masked := false }

/-- The library state right after a successful `uthread_init`. -/
def libInit : LibState := (uthread_init 100000 initialLibState).2

/-- `uthread_spawn`: delegate to `create_thread` (the `bad_alloc` path aborts
the process and is not a state). -/
def uthread_spawn (s : LibState) : Int × LibState :=
  let p := ThreadsCollectionManager.create_thread s.mgr
  (p.2, { s with mgr := p.1 })

/-- The `delete_thread` lambda of `uthread_terminate`: remove the thread from
the collection; if it held the mutex, release the mutex and advance the
waiter line. -/
def delete_thread (tid : Int) (s : LibState) : LibState :=
  let s1 := { s with mgr := ThreadsCollectionManager.terminate tid s.mgr }
  if s1.mutex.locking_thread = tid then
    { s1 with
        mutex := { locked := false, locking_thread := -1 }
        mgr := ThreadsCollectionManager.advance_mutex_line s1.mgr }
  else s1

/-- `uthread_terminate`: mask; `tid = 0` exits the process; an unknown id
fails (unmasking); terminating the current thread switches away with
`delete_thread` as post-switch handler (the call does not return); otherwise
delete directly, unmask and return 0. -/
def uthread_terminate (tid : Int) (s : LibState) : ApiResult :=
  let s0 := mask_time_signal true s
  if tid = 0 then ApiResult.exitProcess
  else if tid ∉ s0.mgr.alive then ApiResult.ret FAILURE (mask_time_signal false s0)
  else if tid = s0.mgr.curr_thread_id then
    match switch_threads_mid_quantum (delete_thread tid) s0 with
    | none => ApiResult.undef
    | some s' => ApiResult.switched s'
  else ApiResult.ret SUCCESS (mask_time_signal false (delete_thread tid s0))

/-- `uthread_block`: mask; blocking id 0 or an unknown id fails (unmasking);
blocking the current thread switches away with `block tid` as post-switch
handler; otherwise block directly, unmask and return 0. -/
def uthread_block (tid : Int) (s : LibState) : ApiResult :=
  let s0 := mask_time_signal true s
  if tid = 0 ∨ tid ∉ s0.mgr.alive then ApiResult.ret FAILURE (mask_time_signal false s0)
  else if s0.mgr.curr_thread_id = tid then
    match
      switch_threads_mid_quantum
        (fun st => { st with mgr := ThreadsCollectionManager.block tid st.mgr }) s0 with
    | none => ApiResult.undef
    | some s' => ApiResult.switched s'
  else
    ApiResult.ret SUCCESS
      (mask_time_signal false { s0 with mgr := ThreadsCollectionManager.block tid s0.mgr })

/-- `uthread_resume`: mask, delegate to the manager's `resume`, unmask,
return its code. -/
def uthread_resume (tid : Int) (s : LibState) : Int × LibState :=
  let s0 := mask_time_signal true s
  let p := ThreadsCollectionManager.resume tid s0.mgr
  (p.1, mask_time_signal false { s0 with mgr := p.2 })

/-- `uthread_mutex_lock`: mask; if the current thread already holds the mutex
fail (unmasking); one iteration of the `while (mutex.locked)` loop: if locked,
enroll the current thread in the waiter set inside the post-switch handler
and switch away (`switched`; when the thread is eventually rescheduled the
source re-executes the loop, which a later `lock` step of the rescheduled
thread models); if unlocked, acquire, unmask, return 0. -/
def uthread_mutex_lock (s : LibState) : ApiResult :=
  let s0 := mask_time_signal true s
  if s0.mutex.locking_thread = s0.mgr.curr_thread_id then
    ApiResult.ret FAILURE (mask_time_signal false s0)
  else if s0.mutex.locked then
    let id := s0.mgr.curr_thread_id
    match
      switch_threads_mid_quantum
        (fun st => { st with mgr := ThreadsCollectionManager.wait_for_mutex id st.mgr }) s0 with
    | none => ApiResult.undef
    | some s' => ApiResult.switched s'
  else
    ApiResult.ret SUCCESS
      (mask_time_signal false
        { s0 with mutex := { locked := true, locking_thread := s0.mgr.curr_thread_id } })

/-- `uthread_mutex_unlock`: mask; fail (unmasking) if unlocked or held by
another thread; otherwise clear the mutex, advance the waiter line, unmask,
return 0.  No context switch. -/
def uthread_mutex_unlock (s : LibState) : Int × LibState :=
  let s0 := mask_time_signal true s
  if s0.mutex.locked = false ∨ s0.mutex.locking_thread ≠ s0.mgr.curr_thread_id then
    (FAILURE, mask_time_signal false s0)
  else
    (SUCCESS, mask_time_signal false
      { s0 with
          mutex := { locked := false, locking_thread := -1 }
          mgr := ThreadsCollectionManager.advance_mutex_line s0.mgr })

/-- `uthread_get_tid`: the current id; no masking, no state change. -/
def uthread_get_tid (s : LibState) : Int := s.mgr.curr_thread_id

/-- `uthread_get_total_quantums`: the counter; no masking, no state change. -/
def uthread_get_total_quantums (s : LibState) : Nat := s.total_quantums

/-- `uthread_get_quantums`: mask; on an unknown id the source returns -1
WITHOUT unmasking (the returned state keeps `masked = true`); otherwise read
the thread's counter, unmask and return it. -/
def uthread_get_quantums (tid : Int) (s : LibState) : Int × LibState :=
  let s0 := mask_time_signal true s
  if tid ∉ s0.mgr.alive then (FAILURE, s0)
  else ((s0.mgr.quantums tid : Int), mask_time_signal false s0)

/-- Labels for the state-changing library operations. -/
inductive Op where
  | tick : Op
  | spawn : Op
  | terminate : Int → Op
  | block : Int → Op
  | resume : Int → Op
  | lock : Op
  | unlock : Op

/-- One steady-state-to-steady-state step of the library: a timer tick or a
public API call by the running thread.  `none` when the operation exits the
process or hits the undefined-behaviour path. -/
def step (op : Op) (s : LibState) : Option LibState :=
  match op with
  | Op.tick => time_sig_handler s
  | Op.spawn => some (uthread_spawn s).2
  | Op.terminate tid =>
    match uthread_terminate tid s with
    | ApiResult.ret _ s' => some s'
    | ApiResult.switched s' => some s'
    | ApiResult.exitProcess => none
    | ApiResult.undef => none
  | Op.block tid =>
    match uthread_block tid s with
    | ApiResult.ret _ s' => some s'
    | ApiResult.switched s' => some s'
    | ApiResult.exitProcess => none
    | ApiResult.undef => none
  | Op.resume tid => some (uthread_resume tid s).2
  | Op.lock =>
    match uthread_mutex_lock s with
    | ApiResult.ret _ s' => some s'
    | ApiResult.switched s' => some s'
    | ApiResult.exitProcess => none
    | ApiResult.undef => none
  | Op.unlock => some (uthread_mutex_unlock s).2

/-- Run a sequence of operations from a given state. -/
def runFrom (s : LibState) : List Op → Option LibState
  | [] => some s
  | op :: ops =>
    match step op s with
    | none => none
    | some s' => runFrom s' ops

/-- Run a sequence of operations from the post-init state. -/
def run (ops : List Op) : Option LibState := runFrom libInit ops

/-- The sum of the `quantums` counters over the live threads. -/
def sumQuantums (c : ThreadsCollectionManager) : Nat :=
  Finset.sum c.alive c.quantums

/-- Ghost accounting: the quantums a successful `terminate tid` discards from
the live sum (the counter of the erased record). -/
def lostDelta (op : Op) (s : LibState) : Nat :=
  match op with
  | Op.terminate tid => if tid ≠ 0 ∧ tid ∈ s.mgr.alive then s.mgr.quantums tid else 0
  | _ => 0

/-- Run, also accumulating the quantums discarded by terminations. -/
def runLostFrom (s : LibState) (acc : Nat) : List Op → Option (LibState × Nat)
  | [] => some (s, acc)
  | op :: ops =>
    match step op s with
    | none => none
    | some s' => runLostFrom s' (acc + lostDelta op s) ops

/-- `run` with the termination-loss ghost counter, from the post-init state. -/
def runLost (ops : List Op) : Option (LibState × Nat) := runLostFrom libInit 0 ops

/-- The collection-state invariant maintained by the library (stated on the
manager): the ready queue has no duplicates, the current thread is live and in
no waiting structure, the ready queue is disjoint from the blocked set and the
waiter set, every structure holds live ids, available ids are not live, and
every live id is current, ready, blocked or waiting. -/
def MgrInv (c : ThreadsCollectionManager) : Prop :=
  c.readyQueue.Nodup ∧
  c.curr_thread_id ∈ c.alive ∧
  c.curr_thread_id ∉ c.readyQueue ∧
  c.curr_thread_id ∉ c.blocked ∧
  c.curr_thread_id ∉ c.waiting_fot_mutex ∧
  (∀ x ∈ c.readyQueue, x ∉ c.blocked) ∧
  (∀ x ∈ c.readyQueue, x ∉ c.waiting_fot_mutex) ∧
  (∀ x ∈ c.readyQueue, x ∈ c.alive) ∧
  c.blocked ⊆ c.alive ∧
  c.waiting_fot_mutex ⊆ c.alive ∧
  (∀ x ∈ c.available_ids, x ∉ c.alive) ∧
  (∀ x ∈ c.alive,
    x = c.curr_thread_id ∨ x ∈ c.readyQueue ∨ x ∈ c.blocked ∨ x ∈ c.waiting_fot_mutex)

instance (c : ThreadsCollectionManager) : Decidable (MgrInv c) := by
  unfold MgrInv
  infer_instance

/-- The invariant, lifted to the library state. -/
def InvHolds (s : LibState) : Prop := MgrInv s.mgr

instance (s : LibState) : Decidable (InvHolds s) := by
  unfold InvHolds
  infer_instance

/-- The post-switch state of a successful `switch_threads` whose ready queue
was `h :: t` (proof helper). -/
def switch_post (handler : LibState → LibState) (h : Int) (t : List Int)
    (s : LibState) : LibState :=
  let s2 := handler
    { s with
        total_quantums := s.total_quantums + 1
        mgr := { s.mgr with curr_thread_id := h, readyQueue := t } }
  { s2 with mgr := ThreadsCollectionManager.bump_current_quantums s2.mgr }

/-- Concrete manager in which every mutex waiter is also blocked (for the
erase-only branch of `advance_mutex_line`). -/
def mgrAllBlocked : ThreadsCollectionManager :=
  { curr_thread_id := 0
    alive := {0, 1, 2}
    quantums := fun _ => 0
    readyQueue := []
    waiting_fot_mutex := {1, 2}
    available_ids := ∅
    blocked := {1, 2} }

/-- Concrete state for the C5 witness: the main thread (current id 0) holds
the mutex in the post-init collection. -/
def stateC5 : LibState :=
  { mgr := ThreadsCollectionManager.initialManager
    mutex := { locked := true, locking_thread := 0 }
    total_quantums := 1
    masked := false }

/-- Concrete state for the C9 witness: thread 1 is live and ready, holds the
mutex, and the main thread (current) will terminate it. -/
def stateC9 : LibState :=
  { mgr := { curr_thread_id := 0
             alive := {0, 1}
             quantums := fun _ => 1
             readyQueue := [1]
             waiting_fot_mutex := ∅
             available_ids := Finset.Icc 2 (MAX_THREAD_NUM - 1)
             blocked := ∅ }
    mutex := { locked := true, locking_thread := 1 }
    total_quantums := 2
    masked := false }

namespace ThreadsCollectionManager

theorem set_as_ready_curr (i : Int) (c : ThreadsCollectionManager) :
    (set_as_ready i c).curr_thread_id = c.curr_thread_id := by
  unfold set_as_ready; split <;> rfl

theorem set_as_ready_alive (i : Int) (c : ThreadsCollectionManager) :
    (set_as_ready i c).alive = c.alive := by
  unfold set_as_ready; split <;> rfl

theorem set_as_ready_blocked (i : Int) (c : ThreadsCollectionManager) :
    (set_as_ready i c).blocked = c.blocked := by
  unfold set_as_ready; split <;> rfl

theorem set_as_ready_waiting (i : Int) (c : ThreadsCollectionManager) :
    (set_as_ready i c).waiting_fot_mutex = c.waiting_fot_mutex := by
  unfold set_as_ready; split <;> rfl

theorem set_as_ready_available (i : Int) (c : ThreadsCollectionManager) :
    (set_as_ready i c).available_ids = c.available_ids := by
  unfold set_as_ready; split <;> rfl

theorem set_as_ready_quantums (i : Int) (c : ThreadsCollectionManager) :
    (set_as_ready i c).quantums = c.quantums := by
  unfold set_as_ready; split <;> rfl

theorem mgrInv_set_as_ready (i : Int) (c : ThreadsCollectionManager)
    (hinv : MgrInv c) (hi : i ∈ c.alive) : MgrInv (set_as_ready i c) := by
  obtain ⟨hnd, hca, hcr, hcb, hcw, hrb, hrw, hra, hba, hwa, hav, hcov⟩ := hinv
  unfold set_as_ready
  split
  · rename_i h
    obtain ⟨h1, h2, h3, h4⟩ := h
    refine ⟨?_, hca, ?_, hcb, hcw, ?_, ?_, ?_, hba, hwa, hav, ?_⟩
    · simpa [List.nodup_append, hnd] using h2
    · simp only [List.mem_append, List.mem_singleton]
      rintro (hc | hc)
      · exact hcr hc
      · exact h1 hc
    · intro x hx
      rcases List.mem_append.mp hx with hx | hx
      · exact hrb x hx
      · rcases List.mem_singleton.mp hx with rfl; exact h4
    · intro x hx
      rcases List.mem_append.mp hx with hx | hx
      · exact hrw x hx
      · rcases List.mem_singleton.mp hx with rfl; exact h3
    · intro x hx
      rcases List.mem_append.mp hx with hx | hx
      · exact hra x hx
      · rcases List.mem_singleton.mp hx with rfl; exact hi
    · intro x hx
      rcases hcov x hx with hc | hc | hc | hc
      · exact Or.inl hc
      · exact Or.inr (Or.inl (List.mem_append.mpr (Or.inl hc)))
      · exact Or.inr (Or.inr (Or.inl hc))
      · exact Or.inr (Or.inr (Or.inr hc))
  · exact ⟨hnd, hca, hcr, hcb, hcw, hrb, hrw, hra, hba, hwa, hav, hcov⟩

theorem mgrInv_advance (c : ThreadsCollectionManager) (hinv : MgrInv c) :
    MgrInv (advance_mutex_line c) := by
  obtain ⟨hnd, hca, hcr, hcb, hcw, hrb, hrw, hra, hba, hwa, hav, hcov⟩ := hinv
  unfold advance_mutex_line
  split
  · rename_i hw
    simp only []
    split
    · rename_i h
      have hid := Finset.min'_mem _ h
      rw [Finset.mem_sdiff] at hid
      obtain ⟨hidw, hidb⟩ := hid
      have hidr : (c.waiting_fot_mutex \ c.blocked).min' h ∉ c.readyQueue := fun hc => hrw _ hc hidw
      have hidc : (c.waiting_fot_mutex \ c.blocked).min' h ≠ c.curr_thread_id := by
        intro he
        rw [he] at hidw
        exact hcw hidw
      refine ⟨?_, hca, ?_, hcb, ?_, ?_, ?_, ?_, hba, ?_, hav, ?_⟩
      · simpa [List.nodup_append, hnd] using hidr
      · simp only [List.mem_append, List.mem_singleton]
        rintro (hc | hc)
        · exact hcr hc
        · exact hidc hc.symm
      · exact fun hc => hcw (Finset.mem_of_mem_erase hc)
      · intro x hx
        rcases List.mem_append.mp hx with hx | hx
        · exact hrb x hx
        · rcases List.mem_singleton.mp hx with rfl; exact hidb
      · intro x hx hxw
        rcases List.mem_append.mp hx with hx | hx
        · exact hrw x hx (Finset.mem_of_mem_erase hxw)
        · rcases List.mem_singleton.mp hx with rfl
          exact (Finset.not_mem_erase _ _) hxw
      · intro x hx
        rcases List.mem_append.mp hx with hx | hx
        · exact hra x hx
        · rcases List.mem_singleton.mp hx with rfl; exact hwa hidw
      · exact fun x hx => hwa (Finset.mem_of_mem_erase hx)
      · intro x hx
        rcases hcov x hx with hc | hc | hc | hc
        · exact Or.inl hc
        · exact Or.inr (Or.inl (List.mem_append.mpr (Or.inl hc)))
        · exact Or.inr (Or.inr (Or.inl hc))
        · by_cases hxi : x = (c.waiting_fot_mutex \ c.blocked).min' h
          · exact Or.inr (Or.inl (List.mem_append.mpr (Or.inr (by simp [hxi]))))
          · exact Or.inr (Or.inr (Or.inr (Finset.mem_erase.mpr ⟨hxi, hc⟩)))
    · rename_i h
      have hsub : c.waiting_fot_mutex ⊆ c.blocked := by
        intro x hx
        by_contra hxb
        exact h ⟨x, Finset.mem_sdiff.mpr ⟨hx, hxb⟩⟩
      refine ⟨hnd, hca, hcr, hcb, ?_, hrb, ?_, hra, hba, ?_, hav, ?_⟩
      · exact fun hc => hcw (Finset.mem_of_mem_erase hc)
      · exact fun x hx hxw => hrw x hx (Finset.mem_of_mem_erase hxw)
      · exact fun x hx => hwa (Finset.mem_of_mem_erase hx)
      · intro x hx
        rcases hcov x hx with hc | hc | hc | hc
        · exact Or.inl hc
        · exact Or.inr (Or.inl hc)
        · exact Or.inr (Or.inr (Or.inl hc))
        · exact Or.inr (Or.inr (Or.inl (hsub hc)))
  · exact ⟨hnd, hca, hcr, hcb, hcw, hrb, hrw, hra, hba, hwa, hav, hcov⟩

end ThreadsCollectionManager

namespace ThreadsCollectionManager

theorem set_as_ready_pos (i : Int) (c : ThreadsCollectionManager)
    (hg : c.curr_thread_id ≠ i ∧ i ∉ c.readyQueue ∧ i ∉ c.waiting_fot_mutex ∧ i ∉ c.blocked) :
    set_as_ready i c = { c with readyQueue := c.readyQueue ++ [i] } := by
  unfold set_as_ready; rw [if_pos hg]

theorem set_as_ready_neg (i : Int) (c : ThreadsCollectionManager)
    (hg : ¬ (c.curr_thread_id ≠ i ∧ i ∉ c.readyQueue ∧ i ∉ c.waiting_fot_mutex ∧ i ∉ c.blocked)) :
    set_as_ready i c = c := by
  unfold set_as_ready; rw [if_neg hg]

theorem mgrInv_bump (c : ThreadsCollectionManager) (h : MgrInv c) :
    MgrInv (bump_current_quantums c) := h

theorem mgrInv_tick_switch (c : ThreadsCollectionManager) (h : Int) (t : List Int)
    (hinv : MgrInv c) (hq : c.readyQueue = h :: t) :
    MgrInv (set_as_ready c.curr_thread_id
      { c with curr_thread_id := h, readyQueue := t }) := by
  obtain ⟨hnd, hca, hcr, hcb, hcw, hrb, hrw, hra, hba, hwa, hav, hcov⟩ := hinv
  rw [hq] at hnd hcr hrb hrw hra hcov
  have hht : h ∉ t := (List.nodup_cons.mp hnd).1
  have hndt : t.Nodup := (List.nodup_cons.mp hnd).2
  have hc0h : c.curr_thread_id ≠ h := fun he => hcr (he ▸ List.mem_cons_self h t)
  have hc0t : c.curr_thread_id ∉ t := fun he => hcr (List.mem_cons_of_mem h he)
  rw [set_as_ready_pos]
  · refine ⟨?_, hra h (List.mem_cons_self h t), ?_, ?_, ?_, ?_, ?_, ?_, hba, hwa, hav, ?_⟩
    · simpa [List.nodup_append, hndt] using hc0t
    · simp only [List.mem_append, List.mem_singleton]
      rintro (hc | hc)
      · exact hht hc
      · exact hc0h hc.symm
    · exact hrb h (List.mem_cons_self h t)
    · exact hrw h (List.mem_cons_self h t)
    · intro x hx
      rcases List.mem_append.mp hx with hx | hx
      · exact hrb x (List.mem_cons_of_mem h hx)
      · rcases List.mem_singleton.mp hx with rfl; exact hcb
    · intro x hx
      rcases List.mem_append.mp hx with hx | hx
      · exact hrw x (List.mem_cons_of_mem h hx)
      · rcases List.mem_singleton.mp hx with rfl; exact hcw
    · intro x hx
      rcases List.mem_append.mp hx with hx | hx
      · exact hra x (List.mem_cons_of_mem h hx)
      · rcases List.mem_singleton.mp hx with rfl; exact hca
    · intro x hx
      rcases hcov x hx with hc | hc | hc | hc
      · exact Or.inr (Or.inl (List.mem_append.mpr (Or.inr (by simp [hc]))))
      · rcases List.mem_cons.mp hc with hc | hc
        · exact Or.inl hc
        · exact Or.inr (Or.inl (List.mem_append.mpr (Or.inl hc)))
      · exact Or.inr (Or.inr (Or.inl hc))
      · exact Or.inr (Or.inr (Or.inr hc))
  · exact ⟨fun he => hc0h he.symm, hc0t, hcw, hcb⟩

theorem mgrInv_block_self (c : ThreadsCollectionManager) (h : Int) (t : List Int)
    (hinv : MgrInv c) (hq : c.readyQueue = h :: t) :
    MgrInv (block c.curr_thread_id
      { c with curr_thread_id := h, readyQueue := t }) := by
  obtain ⟨hnd, hca, hcr, hcb, hcw, hrb, hrw, hra, hba, hwa, hav, hcov⟩ := hinv
  rw [hq] at hnd hcr hrb hrw hra hcov
  have hht : h ∉ t := (List.nodup_cons.mp hnd).1
  have hndt : t.Nodup := (List.nodup_cons.mp hnd).2
  have hc0h : c.curr_thread_id ≠ h := fun he => hcr (he ▸ List.mem_cons_self h t)
  have hc0t : c.curr_thread_id ∉ t := fun he => hcr (List.mem_cons_of_mem h he)
  unfold block
  have hmemf : ∀ x : Int,
      x ∈ t.filter (fun y => decide (y ≠ c.curr_thread_id)) ↔
        (x ∈ t ∧ x ≠ c.curr_thread_id) := by
    intro x; simp [List.mem_filter]
  refine ⟨?_, hra h (List.mem_cons_self h t), ?_, ?_, ?_, ?_, ?_, ?_, ?_, hwa, hav, ?_⟩
  · exact List.Nodup.filter _ hndt
  · exact fun hc => hht ((hmemf h).mp hc).1
  · simp only [Finset.mem_insert]
    rintro (hc | hc)
    · exact hc0h hc.symm
    · exact hrb h (List.mem_cons_self h t) hc
  · exact hrw h (List.mem_cons_self h t)
  · intro x hx
    obtain ⟨hxt, hxc⟩ := (hmemf x).mp hx
    simp only [Finset.mem_insert]
    rintro (hc | hc)
    · exact hxc hc
    · exact hrb x (List.mem_cons_of_mem h hxt) hc
  · exact fun x hx => hrw x (List.mem_cons_of_mem h ((hmemf x).mp hx).1)
  · exact fun x hx => hra x (List.mem_cons_of_mem h ((hmemf x).mp hx).1)
  · intro x hx
    rcases Finset.mem_insert.mp hx with hc | hc
    · exact hc ▸ hca
    · exact hba hc
  · intro x hx
    rcases hcov x hx with hc | hc | hc | hc
    · exact Or.inr (Or.inr (Or.inl (Finset.mem_insert.mpr (Or.inl hc))))
    · rcases List.mem_cons.mp hc with hc | hc
      · exact Or.inl hc
      · refine Or.inr (Or.inl ((hmemf x).mpr ⟨hc, ?_⟩))
        intro he; exact hc0t (he ▸ hc)
    · exact Or.inr (Or.inr (Or.inl (Finset.mem_insert.mpr (Or.inr hc))))
    · exact Or.inr (Or.inr (Or.inr hc))

theorem mgrInv_wait_self (c : ThreadsCollectionManager) (h : Int) (t : List Int)
    (hinv : MgrInv c) (hq : c.readyQueue = h :: t) :
    MgrInv (wait_for_mutex c.curr_thread_id
      { c with curr_thread_id := h, readyQueue := t }) := by
  obtain ⟨hnd, hca, hcr, hcb, hcw, hrb, hrw, hra, hba, hwa, hav, hcov⟩ := hinv
  rw [hq] at hnd hcr hrb hrw hra hcov
  have hht : h ∉ t := (List.nodup_cons.mp hnd).1
  have hndt : t.Nodup := (List.nodup_cons.mp hnd).2
  have hc0h : c.curr_thread_id ≠ h := fun he => hcr (he ▸ List.mem_cons_self h t)
  have hc0t : c.curr_thread_id ∉ t := fun he => hcr (List.mem_cons_of_mem h he)
  unfold wait_for_mutex
  refine ⟨hndt, hra h (List.mem_cons_self h t), hht, ?_, ?_, ?_, ?_, ?_, hba, ?_, hav, ?_⟩
  · exact hrb h (List.mem_cons_self h t)
  · simp only [Finset.mem_insert]
    rintro (hc | hc)
    · exact hc0h hc.symm
    · exact hrw h (List.mem_cons_self h t) hc
  · exact fun x hx => hrb x (List.mem_cons_of_mem h hx)
  · intro x hx
    simp only [Finset.mem_insert]
    rintro (hc | hc)
    · exact hc0t (hc ▸ hx)
    · exact hrw x (List.mem_cons_of_mem h hx) hc
  · exact fun x hx => hra x (List.mem_cons_of_mem h hx)
  · intro x hx
    rcases Finset.mem_insert.mp hx with hc | hc
    · exact hc ▸ hca
    · exact hwa hc
  · intro x hx
    rcases hcov x hx with hc | hc | hc | hc
    · exact Or.inr (Or.inr (Or.inr (Finset.mem_insert.mpr (Or.inl hc))))
    · rcases List.mem_cons.mp hc with hc | hc
      · exact Or.inl hc
      · exact Or.inr (Or.inl hc)
    · exact Or.inr (Or.inr (Or.inl hc))
    · exact Or.inr (Or.inr (Or.inr (Finset.mem_insert.mpr (Or.inr hc))))

end ThreadsCollectionManager

namespace ThreadsCollectionManager

theorem mgrInv_terminate_other (tid : Int) (c : ThreadsCollectionManager)
    (hinv : MgrInv c) (hne : tid ≠ c.curr_thread_id) : MgrInv (terminate tid c) := by
  obtain ⟨hnd, hca, hcr, hcb, hcw, hrb, hrw, hra, hba, hwa, hav, hcov⟩ := hinv
  unfold terminate
  have hmemf : ∀ x : Int,
      x ∈ c.readyQueue.filter (fun y => decide (y ≠ tid)) ↔
        (x ∈ c.readyQueue ∧ x ≠ tid) := by
    intro x; simp [List.mem_filter]
  refine ⟨?_, ?_, ?_, ?_, ?_, ?_, ?_, ?_, ?_, ?_, ?_, ?_⟩
  · exact List.Nodup.filter _ hnd
  · exact Finset.mem_erase.mpr ⟨fun he => hne he.symm, hca⟩
  · exact fun hc => hcr ((hmemf _).mp hc).1
  · exact fun hc => hcb (Finset.mem_of_mem_erase hc)
  · exact fun hc => hcw (Finset.mem_of_mem_erase hc)
  · exact fun x hx hc => hrb x ((hmemf x).mp hx).1 (Finset.mem_of_mem_erase hc)
  · exact fun x hx hc => hrw x ((hmemf x).mp hx).1 (Finset.mem_of_mem_erase hc)
  · intro x hx
    obtain ⟨hxr, hxt⟩ := (hmemf x).mp hx
    exact Finset.mem_erase.mpr ⟨hxt, hra x hxr⟩
  · intro x hx
    obtain ⟨hxt, hxb⟩ := Finset.mem_erase.mp hx
    exact Finset.mem_erase.mpr ⟨hxt, hba hxb⟩
  · intro x hx
    obtain ⟨hxt, hxw⟩ := Finset.mem_erase.mp hx
    exact Finset.mem_erase.mpr ⟨hxt, hwa hxw⟩
  · intro x hx
    rcases Finset.mem_insert.mp hx with hc | hc
    · exact fun hal => (Finset.not_mem_erase x c.alive) (hc ▸ hal)
    · exact fun hal => hav x hc (Finset.mem_of_mem_erase hal)
  · intro x hx
    obtain ⟨hxt, hxa⟩ := Finset.mem_erase.mp hx
    rcases hcov x hxa with hc | hc | hc | hc
    · exact Or.inl hc
    · exact Or.inr (Or.inl ((hmemf x).mpr ⟨hc, hxt⟩))
    · exact Or.inr (Or.inr (Or.inl (Finset.mem_erase.mpr ⟨hxt, hc⟩)))
    · exact Or.inr (Or.inr (Or.inr (Finset.mem_erase.mpr ⟨hxt, hc⟩)))

theorem mgrInv_pop (c : ThreadsCollectionManager) (h : Int) (t : List Int)
    (hinv : MgrInv c) (hq : c.readyQueue = h :: t) :
    MgrInv (terminate c.curr_thread_id { c with curr_thread_id := h, readyQueue := t }) := by
  obtain ⟨hnd, hca, hcr, hcb, hcw, hrb, hrw, hra, hba, hwa, hav, hcov⟩ := hinv
  rw [hq] at hnd hcr hrb hrw hra hcov
  have hc0h : c.curr_thread_id ≠ h := fun he => hcr (he ▸ List.mem_cons_self h t)
  have hmid : MgrInv { c with curr_thread_id := h, readyQueue := c.curr_thread_id :: t } := by
    have hht : h ∉ t := (List.nodup_cons.mp hnd).1
    have hndt : t.Nodup := (List.nodup_cons.mp hnd).2
    have hc0t : c.curr_thread_id ∉ t := fun he => hcr (List.mem_cons_of_mem h he)
    refine ⟨?_, hra h (List.mem_cons_self h t), ?_, ?_, ?_, ?_, ?_, ?_, hba, hwa, hav, ?_⟩
    · exact List.nodup_cons.mpr ⟨hc0t, hndt⟩
    · simp only [List.mem_cons]
      rintro (hc | hc)
      · exact hc0h hc.symm
      · exact hht hc
    · exact hrb h (List.mem_cons_self h t)
    · exact hrw h (List.mem_cons_self h t)
    · intro x hx
      rcases List.mem_cons.mp hx with hc | hc
      · exact hc ▸ hcb
      · exact hrb x (List.mem_cons_of_mem h hc)
    · intro x hx
      rcases List.mem_cons.mp hx with hc | hc
      · exact hc ▸ hcw
      · exact hrw x (List.mem_cons_of_mem h hc)
    · intro x hx
      rcases List.mem_cons.mp hx with hc | hc
      · exact hc ▸ hca
      · exact hra x (List.mem_cons_of_mem h hc)
    · intro x hx
      rcases hcov x hx with hc | hc | hc | hc
      · exact Or.inr (Or.inl (List.mem_cons.mpr (Or.inl hc)))
      · rcases List.mem_cons.mp hc with hc | hc
        · exact Or.inl hc
        · exact Or.inr (Or.inl (List.mem_cons.mpr (Or.inr hc)))
      · exact Or.inr (Or.inr (Or.inl hc))
      · exact Or.inr (Or.inr (Or.inr hc))
  have hres := mgrInv_terminate_other c.curr_thread_id _ hmid (fun he => hc0h he)
  unfold terminate at hres ⊢
  simp only [List.filter_cons] at hres
  have hdec : (decide (c.curr_thread_id ≠ c.curr_thread_id)) = false := by simp
  rw [hdec] at hres
  exact hres

theorem mgrInv_create (c : ThreadsCollectionManager) (hinv : MgrInv c) :
    MgrInv (create_thread c).1 := by
  obtain ⟨hnd, hca, hcr, hcb, hcw, hrb, hrw, hra, hba, hwa, hav, hcov⟩ := hinv
  unfold create_thread
  split
  · rename_i hne
    simp only []
    have hmin : c.available_ids.min' hne ∈ c.available_ids := Finset.min'_mem _ hne
    have hna : c.available_ids.min' hne ∉ c.alive := hav _ hmin
    have hnr : c.available_ids.min' hne ∉ c.readyQueue := fun hc => hna (hra _ hc)
    have hnb : c.available_ids.min' hne ∉ c.blocked := fun hc => hna (hba hc)
    have hnw : c.available_ids.min' hne ∉ c.waiting_fot_mutex := fun hc => hna (hwa hc)
    have hnc : c.available_ids.min' hne ≠ c.curr_thread_id := fun hc => hna (hc ▸ hca)
    refine ⟨?_, Finset.mem_insert.mpr (Or.inr hca), ?_, hcb, hcw, ?_, ?_, ?_, ?_, ?_, ?_, ?_⟩
    · simpa [List.nodup_append, hnd] using hnr
    · simp only [List.mem_append, List.mem_singleton]
      rintro (hc | hc)
      · exact hcr hc
      · exact hnc hc.symm
    · intro x hx
      rcases List.mem_append.mp hx with hx | hx
      · exact hrb x hx
      · rcases List.mem_singleton.mp hx with rfl; exact hnb
    · intro x hx
      rcases List.mem_append.mp hx with hx | hx
      · exact hrw x hx
      · rcases List.mem_singleton.mp hx with rfl; exact hnw
    · intro x hx
      rcases List.mem_append.mp hx with hx | hx
      · exact Finset.mem_insert.mpr (Or.inr (hra x hx))
      · rcases List.mem_singleton.mp hx with rfl; exact Finset.mem_insert_self _ _
    · exact fun x hx => Finset.mem_insert.mpr (Or.inr (hba hx))
    · exact fun x hx => Finset.mem_insert.mpr (Or.inr (hwa hx))
    · intro x hx
      obtain ⟨hxm, hxa⟩ := Finset.mem_erase.mp hx
      intro hc
      rcases Finset.mem_insert.mp hc with hc | hc
      · exact hxm hc
      · exact hav x hxa hc
    · intro x hx
      rcases Finset.mem_insert.mp hx with hc | hc
      · exact Or.inr (Or.inl (List.mem_append.mpr (Or.inr (by simp [hc]))))
      · rcases hcov x hc with h2 | h2 | h2 | h2
        · exact Or.inl h2
        · exact Or.inr (Or.inl (List.mem_append.mpr (Or.inl h2)))
        · exact Or.inr (Or.inr (Or.inl h2))
        · exact Or.inr (Or.inr (Or.inr h2))
  · exact ⟨hnd, hca, hcr, hcb, hcw, hrb, hrw, hra, hba, hwa, hav, hcov⟩

theorem mgrInv_resume (tid : Int) (c : ThreadsCollectionManager) (hinv : MgrInv c) :
    MgrInv (resume tid c).2 := by
  obtain ⟨hnd, hca, hcr, hcb, hcw, hrb, hrw, hra, hba, hwa, hav, hcov⟩ := hinv
  unfold resume
  split
  · rename_i ha
    simp only []
    by_cases hg : c.curr_thread_id ≠ tid ∧ tid ∉ c.readyQueue ∧
        tid ∉ c.waiting_fot_mutex ∧ tid ∉ c.blocked.erase tid
    · rw [set_as_ready_pos tid { c with blocked := c.blocked.erase tid } hg]
      obtain ⟨hg1, hg2, hg3, _⟩ := hg
      refine ⟨?_, hca, ?_, ?_, hcw, ?_, ?_, ?_, ?_, hwa, hav, ?_⟩
      · simpa [List.nodup_append, hnd] using hg2
      · simp only [List.mem_append, List.mem_singleton]
        rintro (hc | hc)
        · exact hcr hc
        · exact hg1 hc
      · exact fun hc => hcb (Finset.mem_of_mem_erase hc)
      · intro x hx
        rcases List.mem_append.mp hx with hx | hx
        · exact fun hc => hrb x hx (Finset.mem_of_mem_erase hc)
        · rcases List.mem_singleton.mp hx with rfl
          exact Finset.not_mem_erase _ _
      · intro x hx
        rcases List.mem_append.mp hx with hx | hx
        · exact hrw x hx
        · rcases List.mem_singleton.mp hx with rfl; exact hg3
      · intro x hx
        rcases List.mem_append.mp hx with hx | hx
        · exact hra x hx
        · rcases List.mem_singleton.mp hx with rfl; exact ha
      · exact fun x hx => hba (Finset.mem_of_mem_erase hx)
      · intro x hx
        rcases hcov x hx with hc | hc | hc | hc
        · exact Or.inl hc
        · exact Or.inr (Or.inl (List.mem_append.mpr (Or.inl hc)))
        · by_cases hxt : x = tid
          · exact Or.inr (Or.inl (List.mem_append.mpr (Or.inr (by simp [hxt]))))
          · exact Or.inr (Or.inr (Or.inl (Finset.mem_erase.mpr ⟨hxt, hc⟩)))
        · exact Or.inr (Or.inr (Or.inr hc))
    · rw [set_as_ready_neg tid { c with blocked := c.blocked.erase tid } hg]
      have htid : c.curr_thread_id = tid ∨ tid ∈ c.readyQueue ∨ tid ∈ c.waiting_fot_mutex := by
        by_cases h1 : c.curr_thread_id = tid
        · exact Or.inl h1
        · by_cases h2 : tid ∈ c.readyQueue
          · exact Or.inr (Or.inl h2)
          · by_cases h3 : tid ∈ c.waiting_fot_mutex
            · exact Or.inr (Or.inr h3)
            · exact absurd ⟨h1, h2, h3, Finset.not_mem_erase _ _⟩ hg
      refine ⟨hnd, hca, hcr, ?_, hcw, ?_, hrw, hra, ?_, hwa, hav, ?_⟩
      · exact fun hc => hcb (Finset.mem_of_mem_erase hc)
      · exact fun x hx hc => hrb x hx (Finset.mem_of_mem_erase hc)
      · exact fun x hx => hba (Finset.mem_of_mem_erase hx)
      · intro x hx
        rcases hcov x hx with hc | hc | hc | hc
        · exact Or.inl hc
        · exact Or.inr (Or.inl hc)
        · by_cases hxt : x = tid
          · rcases htid with h1 | h1 | h1
            · exact Or.inl (hxt ▸ h1.symm)
            · exact Or.inr (Or.inl (hxt ▸ h1))
            · exact Or.inr (Or.inr (Or.inr (hxt ▸ h1)))
          · exact Or.inr (Or.inr (Or.inl (Finset.mem_erase.mpr ⟨hxt, hc⟩)))
        · exact Or.inr (Or.inr (Or.inr hc))
  · exact ⟨hnd, hca, hcr, hcb, hcw, hrb, hrw, hra, hba, hwa, hav, hcov⟩

end ThreadsCollectionManager

namespace ThreadsCollectionManager

theorem mgrInv_block_other (tid : Int) (c : ThreadsCollectionManager)
    (hinv : MgrInv c) (hne : tid ≠ c.curr_thread_id) (ha : tid ∈ c.alive) :
    MgrInv (block tid c) := by
  obtain ⟨hnd, hca, hcr, hcb, hcw, hrb, hrw, hra, hba, hwa, hav, hcov⟩ := hinv
  unfold block
  have hmemf : ∀ x : Int,
      x ∈ c.readyQueue.filter (fun y => decide (y ≠ tid)) ↔
        (x ∈ c.readyQueue ∧ x ≠ tid) := by
    intro x; simp [List.mem_filter]
  refine ⟨?_, hca, ?_, ?_, hcw, ?_, ?_, ?_, ?_, hwa, hav, ?_⟩
  · exact List.Nodup.filter _ hnd
  · exact fun hc => hcr ((hmemf _).mp hc).1
  · simp only [Finset.mem_insert]
    rintro (hc | hc)
    · exact hne hc.symm
    · exact hcb hc
  · intro x hx
    obtain ⟨hxr, hxt⟩ := (hmemf x).mp hx
    simp only [Finset.mem_insert]
    rintro (hc | hc)
    · exact hxt hc
    · exact hrb x hxr hc
  · exact fun x hx => hrw x ((hmemf x).mp hx).1
  · exact fun x hx => hra x ((hmemf x).mp hx).1
  · intro x hx
    rcases Finset.mem_insert.mp hx with hc | hc
    · exact hc ▸ ha
    · exact hba hc
  · intro x hx
    rcases hcov x hx with hc | hc | hc | hc
    · exact Or.inl hc
    · by_cases hxt : x = tid
      · exact Or.inr (Or.inr (Or.inl (Finset.mem_insert.mpr (Or.inl hxt))))
      · exact Or.inr (Or.inl ((hmemf x).mpr ⟨hc, hxt⟩))
    · exact Or.inr (Or.inr (Or.inl (Finset.mem_insert.mpr (Or.inr hc))))
    · exact Or.inr (Or.inr (Or.inr hc))

end ThreadsCollectionManager

theorem switch_threads_nil (handler : LibState → LibState) (s : LibState)
    (hq : s.mgr.readyQueue = []) : switch_threads handler s = none := by
  unfold switch_threads ThreadsCollectionManager.set_next_thread_as_running
  simp only []
  rw [hq]

theorem switch_threads_cons (handler : LibState → LibState) (s : LibState)
    (h : Int) (t : List Int) (hq : s.mgr.readyQueue = h :: t) :
    switch_threads handler s = some (switch_post handler h t s) := by
  unfold switch_threads ThreadsCollectionManager.set_next_thread_as_running switch_post
  simp only []
  rw [hq]

theorem invHolds_term_self (tid : Int) (s : LibState) (h : Int) (t : List Int)
    (hinv : InvHolds s) (h2 : tid = s.mgr.curr_thread_id)
    (hly : s.mgr.readyQueue = h :: t) :
    InvHolds (switch_post (delete_thread tid) h t s) := by
  unfold switch_post delete_thread InvHolds
  simp only []
  split
  · exact ThreadsCollectionManager.mgrInv_bump _
      (ThreadsCollectionManager.mgrInv_advance _
        (h2 ▸ ThreadsCollectionManager.mgrInv_pop s.mgr h t hinv hly))
  · exact ThreadsCollectionManager.mgrInv_bump _
      (h2 ▸ ThreadsCollectionManager.mgrInv_pop s.mgr h t hinv hly)

theorem invHolds_step (op : Op) (s s' : LibState)
    (hinv : InvHolds s) (hstep : step op s = some s') : InvHolds s' := by
  cases op with
  | tick =>
    simp only [step] at hstep
    unfold time_sig_handler at hstep
    split at hstep
    · rw [Option.some.injEq] at hstep
      subst hstep
      exact ThreadsCollectionManager.mgrInv_bump _ hinv
    · rename_i hw
      have hq : s.mgr.readyQueue ≠ [] := by
        simpa [ThreadsCollectionManager.is_someone_waiting] using hw
      rcases hly : s.mgr.readyQueue with _ | ⟨h, t⟩
      · exact absurd hly hq
      · rw [switch_threads_cons _ s h t hly] at hstep
        rw [Option.some.injEq] at hstep
        subst hstep
        exact ThreadsCollectionManager.mgrInv_bump _
          (ThreadsCollectionManager.mgrInv_tick_switch s.mgr h t hinv hly)
  | spawn =>
    simp only [step] at hstep
    unfold uthread_spawn at hstep
    rw [Option.some.injEq] at hstep
    subst hstep
    exact ThreadsCollectionManager.mgrInv_create _ hinv
  | terminate tid =>
    simp only [step] at hstep
    unfold uthread_terminate at hstep
    simp only [mask_time_signal] at hstep
    by_cases h0 : tid = 0
    · rw [if_pos h0] at hstep
      simp at hstep
    · rw [if_neg h0] at hstep
      by_cases h1 : tid ∉ s.mgr.alive
      · rw [if_pos h1] at hstep
        simp only [Option.some.injEq] at hstep
        subst hstep
        exact hinv
      · rw [if_neg h1] at hstep
        by_cases h2 : tid = s.mgr.curr_thread_id
        · rw [if_pos h2] at hstep
          unfold switch_threads_mid_quantum at hstep
          rcases hly : s.mgr.readyQueue with _ | ⟨h, t⟩
          · rw [switch_threads_nil _ { mgr := s.mgr, mutex := s.mutex, total_quantums := s.total_quantums, masked := true } hly] at hstep
            simp at hstep
          · rw [switch_threads_cons _ { mgr := s.mgr, mutex := s.mutex, total_quantums := s.total_quantums, masked := true } h t hly] at hstep
            simp only [Option.some.injEq] at hstep
            subst hstep
            exact invHolds_term_self tid _ h t hinv h2 hly
        · rw [if_neg h2] at hstep
          simp only [Option.some.injEq] at hstep
          subst hstep
          unfold InvHolds delete_thread
          simp only []
          split
          · exact ThreadsCollectionManager.mgrInv_advance _
              (ThreadsCollectionManager.mgrInv_terminate_other tid s.mgr hinv h2)
          · exact ThreadsCollectionManager.mgrInv_terminate_other tid s.mgr hinv h2
  | block tid =>
    simp only [step] at hstep
    unfold uthread_block at hstep
    simp only [mask_time_signal] at hstep
    by_cases h0 : tid = 0 ∨ tid ∉ s.mgr.alive
    · rw [if_pos h0] at hstep
      simp only [Option.some.injEq] at hstep
      subst hstep
      exact hinv
    · rw [if_neg h0] at hstep
      push_neg at h0
      obtain ⟨h0z, h0a⟩ := h0
      by_cases h2 : s.mgr.curr_thread_id = tid
      · rw [if_pos h2] at hstep
        unfold switch_threads_mid_quantum at hstep
        rcases hly : s.mgr.readyQueue with _ | ⟨h, t⟩
        · rw [switch_threads_nil _ { mgr := s.mgr, mutex := s.mutex, total_quantums := s.total_quantums, masked := true } hly] at hstep
          simp at hstep
        · rw [switch_threads_cons _ { mgr := s.mgr, mutex := s.mutex, total_quantums := s.total_quantums, masked := true } h t hly] at hstep
          simp only [Option.some.injEq] at hstep
          subst hstep
          exact ThreadsCollectionManager.mgrInv_bump _
            (h2 ▸ ThreadsCollectionManager.mgrInv_block_self s.mgr h t hinv hly)
      · rw [if_neg h2] at hstep
        simp only [Option.some.injEq] at hstep
        subst hstep
        exact ThreadsCollectionManager.mgrInv_block_other tid s.mgr hinv
          (fun he => h2 he.symm) h0a
  | resume tid =>
    simp only [step] at hstep
    unfold uthread_resume at hstep
    simp only [Option.some.injEq] at hstep
    subst hstep
    exact ThreadsCollectionManager.mgrInv_resume tid s.mgr hinv
  | lock =>
    simp only [step] at hstep
    unfold uthread_mutex_lock at hstep
    simp only [mask_time_signal] at hstep
    by_cases h0 : s.mutex.locking_thread = s.mgr.curr_thread_id
    · rw [if_pos h0] at hstep
      simp only [Option.some.injEq] at hstep
      subst hstep
      exact hinv
    · rw [if_neg h0] at hstep
      by_cases h1 : s.mutex.locked
      · rw [if_pos h1] at hstep
        unfold switch_threads_mid_quantum at hstep
        rcases hly : s.mgr.readyQueue with _ | ⟨h, t⟩
        · rw [switch_threads_nil _ { mgr := s.mgr, mutex := s.mutex, total_quantums := s.total_quantums, masked := true } hly] at hstep
          simp at hstep
        · rw [switch_threads_cons _ { mgr := s.mgr, mutex := s.mutex, total_quantums := s.total_quantums, masked := true } h t hly] at hstep
          simp only [Option.some.injEq] at hstep
          subst hstep
          exact ThreadsCollectionManager.mgrInv_bump _
            (ThreadsCollectionManager.mgrInv_wait_self s.mgr h t hinv hly)
      · rw [if_neg h1] at hstep
        simp only [Option.some.injEq] at hstep
        subst hstep
        exact hinv
  | unlock =>
    simp only [step] at hstep
    unfold uthread_mutex_unlock at hstep
    simp only [mask_time_signal] at hstep
    by_cases h0 : s.mutex.locked = false ∨ s.mutex.locking_thread ≠ s.mgr.curr_thread_id
    · rw [if_pos h0] at hstep
      simp only [Option.some.injEq] at hstep
      subst hstep
      exact hinv
    · rw [if_neg h0] at hstep
      simp only [Option.some.injEq] at hstep
      subst hstep
      exact ThreadsCollectionManager.mgrInv_advance _ hinv

theorem invHolds_runFrom (ops : List Op) (s s' : LibState)
    (hinv : InvHolds s) (hrun : runFrom s ops = some s') : InvHolds s' := by
  induction ops generalizing s with
  | nil =>
    unfold runFrom at hrun
    rw [Option.some.injEq] at hrun
    subst hrun
    exact hinv
  | cons op ops ih =>
    unfold runFrom at hrun
    rcases hs : step op s with _ | s1
    · rw [hs] at hrun; simp at hrun
    · rw [hs] at hrun
      exact ih s1 (invHolds_step op s s1 hinv hs) hrun

theorem invHolds_libInit : InvHolds libInit := by decide

theorem invHolds_run (ops : List Op) (s : LibState)
    (hrun : run ops = some s) : InvHolds s :=
  invHolds_runFrom ops libInit s invHolds_libInit hrun

namespace ThreadsCollectionManager

theorem sum_set_as_ready (i : Int) (c : ThreadsCollectionManager) :
    sumQuantums (set_as_ready i c) = sumQuantums c := by
  unfold set_as_ready; split <;> rfl

theorem sum_advance (c : ThreadsCollectionManager) :
    sumQuantums (advance_mutex_line c) = sumQuantums c := by
  unfold advance_mutex_line
  split
  · simp only []
    split <;> rfl
  · rfl

theorem sum_bump (c : ThreadsCollectionManager) (hc : c.curr_thread_id ∈ c.alive) :
    sumQuantums (bump_current_quantums c) = sumQuantums c + 1 := by
  unfold bump_current_quantums sumQuantums
  simp only []
  have h1 : Finset.sum c.alive
      (Function.update c.quantums c.curr_thread_id (c.quantums c.curr_thread_id + 1)) =
      Function.update c.quantums c.curr_thread_id (c.quantums c.curr_thread_id + 1)
          c.curr_thread_id +
        Finset.sum (c.alive.erase c.curr_thread_id)
          (Function.update c.quantums c.curr_thread_id (c.quantums c.curr_thread_id + 1)) :=
    (Finset.add_sum_erase _ _ hc).symm
  have h2 : Finset.sum (c.alive.erase c.curr_thread_id)
      (Function.update c.quantums c.curr_thread_id (c.quantums c.curr_thread_id + 1)) =
      Finset.sum (c.alive.erase c.curr_thread_id) c.quantums := by
    refine Finset.sum_congr rfl (fun x hx => ?_)
    exact Function.update_noteq (Finset.mem_erase.mp hx).1 _ _
  have h3 : Finset.sum c.alive c.quantums =
      c.quantums c.curr_thread_id + Finset.sum (c.alive.erase c.curr_thread_id) c.quantums :=
    (Finset.add_sum_erase _ _ hc).symm
  rw [h1, h2, h3, Function.update_same]
  omega

theorem sum_create (c : ThreadsCollectionManager)
    (hav : ∀ x ∈ c.available_ids, x ∉ c.alive) :
    sumQuantums (create_thread c).1 = sumQuantums c := by
  unfold create_thread
  split
  · rename_i hne
    simp only []
    have hna : c.available_ids.min' hne ∉ c.alive := hav _ (Finset.min'_mem _ hne)
    unfold sumQuantums
    simp only []
    rw [Finset.sum_insert hna]
    rw [Function.update_same]
    have hcong : Finset.sum c.alive (Function.update c.quantums (c.available_ids.min' hne) 0) =
        Finset.sum c.alive c.quantums := by
      refine Finset.sum_congr rfl (fun x hx => ?_)
      refine Function.update_noteq (fun he => hna ?_) _ _
      rw [← he]
      exact hx
    rw [hcong]
    omega
  · rfl

theorem sum_terminate (tid : Int) (c : ThreadsCollectionManager) (ha : tid ∈ c.alive) :
    sumQuantums (terminate tid c) + c.quantums tid = sumQuantums c := by
  unfold terminate sumQuantums
  simp only []
  exact Finset.sum_erase_add c.alive c.quantums ha

theorem sum_resume (tid : Int) (c : ThreadsCollectionManager) :
    sumQuantums (resume tid c).2 = sumQuantums c := by
  unfold resume
  split
  · simp only []
    rw [sum_set_as_ready]
    rfl
  · rfl

end ThreadsCollectionManager

theorem delete_thread_total (tid : Int) (s : LibState) :
    (delete_thread tid s).total_quantums = s.total_quantums := by
  unfold delete_thread
  simp only []
  split <;> rfl

theorem delete_thread_mgr (tid : Int) (s : LibState) :
    (delete_thread tid s).mgr =
      if s.mutex.locking_thread = tid then
        ThreadsCollectionManager.advance_mutex_line
          (ThreadsCollectionManager.terminate tid s.mgr)
      else ThreadsCollectionManager.terminate tid s.mgr := by
  unfold delete_thread
  simp only []
  split <;> rfl

theorem sum_delete_thread (tid : Int) (s : LibState) (ha : tid ∈ s.mgr.alive) :
    sumQuantums (delete_thread tid s).mgr + s.mgr.quantums tid = sumQuantums s.mgr := by
  rw [delete_thread_mgr]
  split
  · rw [ThreadsCollectionManager.sum_advance]
    exact ThreadsCollectionManager.sum_terminate tid s.mgr ha
  · exact ThreadsCollectionManager.sum_terminate tid s.mgr ha

namespace ThreadsCollectionManager

theorem advance_mutex_curr (c : ThreadsCollectionManager) :
    (advance_mutex_line c).curr_thread_id = c.curr_thread_id := by
  unfold advance_mutex_line
  split
  · simp only []
    split <;> rfl
  · rfl

theorem advance_mutex_alive (c : ThreadsCollectionManager) :
    (advance_mutex_line c).alive = c.alive := by
  unfold advance_mutex_line
  split
  · simp only []
    split <;> rfl
  · rfl

theorem terminate_curr (tid : Int) (c : ThreadsCollectionManager) :
    (terminate tid c).curr_thread_id = c.curr_thread_id := rfl

theorem terminate_alive (tid : Int) (c : ThreadsCollectionManager) :
    (terminate tid c).alive = c.alive.erase tid := rfl

end ThreadsCollectionManager

theorem sum_step (op : Op) (s s' : LibState) (hinv : InvHolds s)
    (hstep : step op s = some s') :
    sumQuantums s'.mgr + lostDelta op s + s.total_quantums =
      sumQuantums s.mgr + s'.total_quantums := by
  obtain ⟨hnd, hca, hcr, hcb, hcw, hrb, hrw, hra, hba, hwa, hav, hcov⟩ := hinv
  cases op with
  | tick =>
    simp only [step] at hstep
    unfold time_sig_handler at hstep
    split at hstep
    · rw [Option.some.injEq] at hstep
      subst hstep
      dsimp only [lostDelta]
      have hb := ThreadsCollectionManager.sum_bump s.mgr hca
      try dsimp only [] at hb ⊢
      omega
    · rename_i hw
      have hq : s.mgr.readyQueue ≠ [] := by
        simpa [ThreadsCollectionManager.is_someone_waiting] using hw
      rcases hly : s.mgr.readyQueue with _ | ⟨h, t⟩
      · exact absurd hly hq
      · rw [switch_threads_cons _ s h t hly] at hstep
        rw [Option.some.injEq] at hstep
        subst hstep
        dsimp only [switch_post, lostDelta]
        have hha : h ∈ s.mgr.alive := hra h (by rw [hly]; exact List.mem_cons_self h t)
        have hb := ThreadsCollectionManager.sum_bump
          (ThreadsCollectionManager.set_as_ready s.mgr.curr_thread_id
            { s.mgr with curr_thread_id := h, readyQueue := t })
          (by rw [ThreadsCollectionManager.set_as_ready_curr,
                  ThreadsCollectionManager.set_as_ready_alive]
              exact hha)
        have hs : sumQuantums
            (ThreadsCollectionManager.set_as_ready s.mgr.curr_thread_id
              { s.mgr with curr_thread_id := h, readyQueue := t }) = sumQuantums s.mgr := by
          rw [ThreadsCollectionManager.sum_set_as_ready]
          rfl
        try dsimp only [] at hb hs ⊢
        omega
  | spawn =>
    simp only [step] at hstep
    unfold uthread_spawn at hstep
    rw [Option.some.injEq] at hstep
    subst hstep
    dsimp only [lostDelta]
    have hs := ThreadsCollectionManager.sum_create s.mgr hav
    try dsimp only [] at hs ⊢
    omega
  | terminate tid =>
    simp only [step] at hstep
    unfold uthread_terminate at hstep
    simp only [mask_time_signal] at hstep
    by_cases h0 : tid = 0
    · rw [if_pos h0] at hstep
      simp at hstep
    · rw [if_neg h0] at hstep
      by_cases h1 : tid ∉ s.mgr.alive
      · rw [if_pos h1] at hstep
        simp only [Option.some.injEq] at hstep
        subst hstep
        dsimp only [lostDelta]
        rw [if_neg (fun hcon => h1 hcon.2)]
        omega
      · rw [if_neg h1] at hstep
        rw [not_not] at h1
        by_cases h2 : tid = s.mgr.curr_thread_id
        · rw [if_pos h2] at hstep
          unfold switch_threads_mid_quantum at hstep
          rcases hly : s.mgr.readyQueue with _ | ⟨h, t⟩
          · rw [switch_threads_nil _ { mgr := s.mgr, mutex := s.mutex, total_quantums := s.total_quantums, masked := true } hly] at hstep
            simp at hstep
          · rw [switch_threads_cons _ { mgr := s.mgr, mutex := s.mutex, total_quantums := s.total_quantums, masked := true } h t hly] at hstep
            simp only [Option.some.injEq] at hstep
            subst hstep
            dsimp only [switch_post, lostDelta]
            rw [if_pos ⟨h0, h1⟩]
            have hha : h ∈ s.mgr.alive := hra h (by rw [hly]; exact List.mem_cons_self h t)
            have hht : h ≠ tid := by
              intro he
              rw [h2] at he
              exact hcr (he ▸ (by rw [hly]; exact List.mem_cons_self h t))
            have hXc : (delete_thread tid
                { mgr := { s.mgr with curr_thread_id := h, readyQueue := t },
                  mutex := s.mutex, total_quantums := s.total_quantums + 1,
                  masked := true }).mgr.curr_thread_id ∈
                (delete_thread tid
                  { mgr := { s.mgr with curr_thread_id := h, readyQueue := t },
                    mutex := s.mutex, total_quantums := s.total_quantums + 1,
                    masked := true }).mgr.alive := by
              rw [delete_thread_mgr]
              split
              · rw [ThreadsCollectionManager.advance_mutex_curr,
                    ThreadsCollectionManager.advance_mutex_alive,
                    ThreadsCollectionManager.terminate_curr,
                    ThreadsCollectionManager.terminate_alive]
                exact Finset.mem_erase.mpr ⟨hht, hha⟩
              · rw [ThreadsCollectionManager.terminate_curr,
                    ThreadsCollectionManager.terminate_alive]
                exact Finset.mem_erase.mpr ⟨hht, hha⟩
            have hb := ThreadsCollectionManager.sum_bump _ hXc
            have hsum := sum_delete_thread tid
              { mgr := { s.mgr with curr_thread_id := h, readyQueue := t },
                mutex := s.mutex, total_quantums := s.total_quantums + 1,
                masked := true } h1
            have hcp : sumQuantums
                ({ mgr := { s.mgr with curr_thread_id := h, readyQueue := t },
                   mutex := s.mutex, total_quantums := s.total_quantums + 1,
                   masked := true } : LibState).mgr = sumQuantums s.mgr := rfl
            have ht := delete_thread_total tid
              { mgr := { s.mgr with curr_thread_id := h, readyQueue := t },
                mutex := s.mutex, total_quantums := s.total_quantums + 1,
                masked := true }
            try dsimp only [] at hb hsum hcp ht ⊢
            omega
        · rw [if_neg h2] at hstep
          simp only [Option.some.injEq] at hstep
          subst hstep
          dsimp only [lostDelta]
          rw [if_pos ⟨h0, h1⟩]
          have hsum := sum_delete_thread tid
            { mgr := s.mgr, mutex := s.mutex, total_quantums := s.total_quantums,
              masked := true } h1
          have ht := delete_thread_total tid
            { mgr := s.mgr, mutex := s.mutex, total_quantums := s.total_quantums,
              masked := true }
          try dsimp only [] at hsum ht ⊢
          omega
  | block tid =>
    simp only [step] at hstep
    unfold uthread_block at hstep
    simp only [mask_time_signal] at hstep
    by_cases h0 : tid = 0 ∨ tid ∉ s.mgr.alive
    · rw [if_pos h0] at hstep
      simp only [Option.some.injEq] at hstep
      subst hstep
      dsimp only [lostDelta]
      omega
    · rw [if_neg h0] at hstep
      by_cases h2 : s.mgr.curr_thread_id = tid
      · rw [if_pos h2] at hstep
        unfold switch_threads_mid_quantum at hstep
        rcases hly : s.mgr.readyQueue with _ | ⟨h, t⟩
        · rw [switch_threads_nil _ { mgr := s.mgr, mutex := s.mutex, total_quantums := s.total_quantums, masked := true } hly] at hstep
          simp at hstep
        · rw [switch_threads_cons _ { mgr := s.mgr, mutex := s.mutex, total_quantums := s.total_quantums, masked := true } h t hly] at hstep
          simp only [Option.some.injEq] at hstep
          subst hstep
          dsimp only [switch_post, lostDelta]
          have hha : h ∈ s.mgr.alive := hra h (by rw [hly]; exact List.mem_cons_self h t)
          have hb := ThreadsCollectionManager.sum_bump
            (ThreadsCollectionManager.block tid
              { s.mgr with curr_thread_id := h, readyQueue := t })
            (by exact hha)
          have hs : sumQuantums
              (ThreadsCollectionManager.block tid
                { s.mgr with curr_thread_id := h, readyQueue := t }) =
              sumQuantums s.mgr := rfl
          try dsimp only [] at hb hs ⊢
          omega
      · rw [if_neg h2] at hstep
        simp only [Option.some.injEq] at hstep
        subst hstep
        dsimp only [lostDelta]
        have hs : sumQuantums (ThreadsCollectionManager.block tid s.mgr) =
            sumQuantums s.mgr := rfl
        try dsimp only [] at hs ⊢
        omega
  | resume tid =>
    simp only [step] at hstep
    unfold uthread_resume at hstep
    simp only [mask_time_signal] at hstep
    simp only [Option.some.injEq] at hstep
    subst hstep
    dsimp only [lostDelta]
    have hs := ThreadsCollectionManager.sum_resume tid s.mgr
    try dsimp only [] at hs ⊢
    omega
  | lock =>
    simp only [step] at hstep
    unfold uthread_mutex_lock at hstep
    simp only [mask_time_signal] at hstep
    by_cases h0 : s.mutex.locking_thread = s.mgr.curr_thread_id
    · rw [if_pos h0] at hstep
      simp only [Option.some.injEq] at hstep
      subst hstep
      dsimp only [lostDelta]
      omega
    · rw [if_neg h0] at hstep
      by_cases h1 : s.mutex.locked
      · rw [if_pos h1] at hstep
        unfold switch_threads_mid_quantum at hstep
        rcases hly : s.mgr.readyQueue with _ | ⟨h, t⟩
        · rw [switch_threads_nil _ { mgr := s.mgr, mutex := s.mutex, total_quantums := s.total_quantums, masked := true } hly] at hstep
          simp at hstep
        · rw [switch_threads_cons _ { mgr := s.mgr, mutex := s.mutex, total_quantums := s.total_quantums, masked := true } h t hly] at hstep
          simp only [Option.some.injEq] at hstep
          subst hstep
          dsimp only [switch_post, lostDelta]
          have hha : h ∈ s.mgr.alive := hra h (by rw [hly]; exact List.mem_cons_self h t)
          have hb := ThreadsCollectionManager.sum_bump
            (ThreadsCollectionManager.wait_for_mutex s.mgr.curr_thread_id
              { s.mgr with curr_thread_id := h, readyQueue := t })
            (by exact hha)
          have hs : sumQuantums
              (ThreadsCollectionManager.wait_for_mutex s.mgr.curr_thread_id
                { s.mgr with curr_thread_id := h, readyQueue := t }) =
              sumQuantums s.mgr := rfl
          try dsimp only [] at hb hs ⊢
          omega
      · rw [if_neg h1] at hstep
        simp only [Option.some.injEq] at hstep
        subst hstep
        dsimp only [lostDelta]
        omega
  | unlock =>
    simp only [step] at hstep
    unfold uthread_mutex_unlock at hstep
    simp only [mask_time_signal] at hstep
    by_cases h0 : s.mutex.locked = false ∨ s.mutex.locking_thread ≠ s.mgr.curr_thread_id
    · rw [if_pos h0] at hstep
      simp only [Option.some.injEq] at hstep
      subst hstep
      dsimp only [lostDelta]
      omega
    · rw [if_neg h0] at hstep
      simp only [Option.some.injEq] at hstep
      subst hstep
      dsimp only [lostDelta]
      have hs := ThreadsCollectionManager.sum_advance s.mgr
      try dsimp only [] at hs ⊢
      omega

theorem sum_runLostFrom (ops : List Op) (s s' : LibState) (acc L : Nat)
    (hinv : InvHolds s) (hacc : sumQuantums s.mgr + acc = s.total_quantums)
    (hrun : runLostFrom s acc ops = some (s', L)) :
    sumQuantums s'.mgr + L = s'.total_quantums := by
  induction ops generalizing s acc with
  | nil =>
    unfold runLostFrom at hrun
    rw [Option.some.injEq] at hrun
    cases hrun
    exact hacc
  | cons op ops ih =>
    unfold runLostFrom at hrun
    rcases hs : step op s with _ | s1
    · rw [hs] at hrun
      simp at hrun
    · rw [hs] at hrun
      have h1 := sum_step op s s1 hinv hs
      exact ih s1 (acc + lostDelta op s) (invHolds_step op s s1 hinv hs) (by omega) hrun

theorem runFrom_eq_runLostFrom (ops : List Op) (s : LibState) (acc : Nat) :
    runFrom s ops = Option.map Prod.fst (runLostFrom s acc ops) := by
  induction ops generalizing s acc with
  | nil => rfl
  | cons op ops ih =>
    unfold runFrom runLostFrom
    rcases hs : step op s with _ | s1
    · rfl
    · exact ih s1 (acc + lostDelta op s)

theorem sum_libInit : sumQuantums libInit.mgr + 0 = libInit.total_quantums := by decide

namespace ThreadsCollectionManager

theorem advance_mutex_available (c : ThreadsCollectionManager) :
    (advance_mutex_line c).available_ids = c.available_ids := by
  unfold advance_mutex_line
  split
  · simp only []
    split <;> rfl
  · rfl

theorem advance_mutex_quantums (c : ThreadsCollectionManager) :
    (advance_mutex_line c).quantums = c.quantums := by
  unfold advance_mutex_line
  split
  · simp only []
    split <;> rfl
  · rfl

theorem advance_mutex_blocked (c : ThreadsCollectionManager) :
    (advance_mutex_line c).blocked = c.blocked := by
  unfold advance_mutex_line
  split
  · simp only []
    split <;> rfl
  · rfl

end ThreadsCollectionManager

theorem delete_thread_mutex (tid : Int) (s : LibState) :
    (delete_thread tid s).mutex =
      if s.mutex.locking_thread = tid then { locked := false, locking_thread := -1 }
      else s.mutex := by
  unfold delete_thread
  simp only []
  split <;> rfl

theorem delete_thread_quantums (tid : Int) (s : LibState) :
    (delete_thread tid s).mgr.quantums = s.mgr.quantums := by
  rw [delete_thread_mgr]
  split
  · rw [ThreadsCollectionManager.advance_mutex_quantums]
    rfl
  · rfl

theorem masked_false_self (s : LibState) (hm : s.masked = false) :
    ({ s with masked := false } : LibState) = s := by
  cases s
  dsimp only [] at hm
  subst hm
  rfl

/-- Claim C3 (code bug): `uthread_get_quantums` on an unknown id enters with
the timer signal unmasked, masks it, prints the error and returns -1 without
unmasking, so the mask state on exit differs from the mask state on entry.
Evaluated here on the post-init state with the dead id 5. -/
theorem c3_get_quantums_mask_bug :
    libInit.masked = false ∧
    (uthread_get_quantums 5 libInit).1 = FAILURE ∧
    (uthread_get_quantums 5 libInit).2.masked = true := by
  constructor
  · rfl
  constructor
  · rfl
  · rfl

/-- Claim C4: `advance_mutex_line` is a no-op on an empty waiter set;
if some waiter is not blocked it moves the minimum such waiter to the back of
the ready queue and erases it from the waiter set; if every waiter is blocked
it erases exactly one waiter (leaving the ready queue unchanged). -/
theorem c4_advance_mutex_line_spec (c : ThreadsCollectionManager) :
    (c.waiting_fot_mutex = ∅ → ThreadsCollectionManager.advance_mutex_line c = c) ∧
    (∀ h : (c.waiting_fot_mutex \ c.blocked).Nonempty,
      ThreadsCollectionManager.advance_mutex_line c =
        { c with
            readyQueue := c.readyQueue ++ [(c.waiting_fot_mutex \ c.blocked).min' h]
            waiting_fot_mutex :=
              c.waiting_fot_mutex.erase ((c.waiting_fot_mutex \ c.blocked).min' h) } ∧
      (∀ y ∈ c.waiting_fot_mutex \ c.blocked, (c.waiting_fot_mutex \ c.blocked).min' h ≤ y)) ∧
    (c.waiting_fot_mutex ≠ ∅ → c.waiting_fot_mutex \ c.blocked = ∅ →
      (ThreadsCollectionManager.advance_mutex_line c).readyQueue = c.readyQueue ∧
      ∃ w ∈ c.waiting_fot_mutex,
        (ThreadsCollectionManager.advance_mutex_line c).waiting_fot_mutex =
          c.waiting_fot_mutex.erase w ∧
        (ThreadsCollectionManager.advance_mutex_line c).waiting_fot_mutex.card =
          c.waiting_fot_mutex.card - 1) := by
  refine ⟨?_, ?_, ?_⟩
  · intro he
    unfold ThreadsCollectionManager.advance_mutex_line
    rw [dif_neg (by rw [he]; exact Finset.not_nonempty_empty)]
  · intro h
    have hw : c.waiting_fot_mutex.Nonempty := by
      obtain ⟨x, hx⟩ := h
      exact ⟨x, (Finset.mem_sdiff.mp hx).1⟩
    constructor
    · unfold ThreadsCollectionManager.advance_mutex_line
      rw [dif_pos hw]
      simp only []
      rw [dif_pos h]
    · exact fun y hy => Finset.min'_le _ y hy
  · intro hne hdiff
    have hw : c.waiting_fot_mutex.Nonempty := Finset.nonempty_iff_ne_empty.mpr hne
    unfold ThreadsCollectionManager.advance_mutex_line
    rw [dif_pos hw]
    simp only []
    rw [dif_neg (by rw [hdiff]; exact Finset.not_nonempty_empty)]
    refine ⟨rfl, c.waiting_fot_mutex.min' hw, Finset.min'_mem _ hw, rfl, ?_⟩
    exact Finset.card_erase_of_mem (Finset.min'_mem _ hw)

/-- Witness for C4: in `mgrAllBlocked` (waiters {1,2} all blocked),
`advance_mutex_line` leaves the ready queue unchanged and erases exactly one
waiter. -/
theorem c4_advance_mutex_line_spec_witness :
    (ThreadsCollectionManager.advance_mutex_line mgrAllBlocked).readyQueue =
        mgrAllBlocked.readyQueue ∧
    ∃ w ∈ mgrAllBlocked.waiting_fot_mutex,
      (ThreadsCollectionManager.advance_mutex_line mgrAllBlocked).waiting_fot_mutex =
        mgrAllBlocked.waiting_fot_mutex.erase w ∧
      (ThreadsCollectionManager.advance_mutex_line mgrAllBlocked).waiting_fot_mutex.card =
        mgrAllBlocked.waiting_fot_mutex.card - 1 :=
  (c4_advance_mutex_line_spec mgrAllBlocked).2.2 (by decide) (by decide)

/-- Claim C8: on a timer tick with an empty ready queue the handler performs
no switch and increments `total_quantums` and the running thread's `quantums`
each by exactly one; with a non-empty ready queue it switches to the front of
the queue, the post-switch action being `set_as_ready` of the previous
current id. -/
theorem c8_tick_spec (s : LibState) :
    (s.mgr.readyQueue = [] →
      time_sig_handler s = some
        { s with
            total_quantums := s.total_quantums + 1
            mgr := ThreadsCollectionManager.bump_current_quantums s.mgr } ∧
      (ThreadsCollectionManager.bump_current_quantums s.mgr).curr_thread_id =
        s.mgr.curr_thread_id ∧
      (ThreadsCollectionManager.bump_current_quantums s.mgr).readyQueue =
        s.mgr.readyQueue ∧
      (ThreadsCollectionManager.bump_current_quantums s.mgr).quantums
          s.mgr.curr_thread_id = s.mgr.quantums s.mgr.curr_thread_id + 1 ∧
      (∀ x, x ≠ s.mgr.curr_thread_id →
        (ThreadsCollectionManager.bump_current_quantums s.mgr).quantums x =
          s.mgr.quantums x)) ∧
    (∀ h t, s.mgr.readyQueue = h :: t →
      time_sig_handler s = some
        { s with
            total_quantums := s.total_quantums + 1
            mgr := ThreadsCollectionManager.bump_current_quantums
              (ThreadsCollectionManager.set_as_ready s.mgr.curr_thread_id
                { s.mgr with curr_thread_id := h, readyQueue := t }) } ∧
      (ThreadsCollectionManager.bump_current_quantums
        (ThreadsCollectionManager.set_as_ready s.mgr.curr_thread_id
          { s.mgr with curr_thread_id := h, readyQueue := t })).curr_thread_id = h) := by
  constructor
  · intro hq
    have hns : ¬ ThreadsCollectionManager.is_someone_waiting s.mgr := fun hc => hc hq
    refine ⟨?_, rfl, rfl, ?_, ?_⟩
    · unfold time_sig_handler
      rw [if_pos hns]
    · exact Function.update_same _ _ _
    · exact fun x hx => Function.update_noteq hx _ _
  · intro h t hty
    have hsw : ThreadsCollectionManager.is_someone_waiting s.mgr := by
      unfold ThreadsCollectionManager.is_someone_waiting
      rw [hty]
      simp
    constructor
    · unfold time_sig_handler
      rw [if_neg (not_not_intro hsw)]
      rw [switch_threads_cons _ s h t hty]
      rfl
    · show (ThreadsCollectionManager.set_as_ready s.mgr.curr_thread_id
        { s.mgr with curr_thread_id := h, readyQueue := t }).curr_thread_id = h
      rw [ThreadsCollectionManager.set_as_ready_curr]

/-- Witness for C8: at the post-init state (empty ready queue) the tick
bumps the counters in place. -/
theorem c8_tick_spec_witness :
    time_sig_handler libInit = some
      { libInit with
          total_quantums := libInit.total_quantums + 1
          mgr := ThreadsCollectionManager.bump_current_quantums libInit.mgr } :=
  ((c8_tick_spec libInit).1 rfl).1

set_option maxRecDepth 100000 in
/-- Counterexample to claim C1 as stated: after the reachable steady-state
trace spawn, tick, tick, terminate 1 (spawn thread 1, let it run one quantum,
run main again, then terminate thread 1 from main), the sum of the per-thread
`quantums` counters over the live threads is 2 while `total_quantums` is 3:
`terminate` discards the terminated thread's quantums from the sum. -/
theorem c1_counterexample :
    Option.map (fun s => decide (sumQuantums s.mgr = s.total_quantums))
      (run [Op.spawn, Op.tick, Op.tick, Op.terminate 1]) = some false := by
  decide

/-- Claim C1 (amended): at every reachable steady-state point,
`total_quantums` equals the sum of the per-thread `quantums` counters over the
live threads plus the quantums already accrued by terminated threads (the
ghost accumulator of `runLost`); in particular the claimed equality holds on
every trace that terminates no thread. -/
theorem c1_quantum_sum_accounting :
    (∀ ops : List Op, run ops = Option.map Prod.fst (runLost ops)) ∧
    (∀ (ops : List Op) (s : LibState) (L : Nat), runLost ops = some (s, L) →
      sumQuantums s.mgr + L = s.total_quantums) := by
  constructor
  · intro ops
    exact runFrom_eq_runLostFrom ops libInit 0
  · intro ops s L h
    exact sum_runLostFrom ops libInit s 0 L invHolds_libInit sum_libInit h

/-- Witness for C1: the empty trace reaches the post-init state with an empty
loss accumulator, where the accounting equation reads 1 + 0 = 1. -/
theorem c1_quantum_sum_accounting_witness :
    run [] = Option.map Prod.fst (runLost []) ∧
    sumQuantums libInit.mgr + 0 = libInit.total_quantums :=
  ⟨c1_quantum_sum_accounting.1 [], c1_quantum_sum_accounting.2 [] libInit 0 rfl⟩

set_option maxRecDepth 100000 in
/-- Counterexample to claim C2 as stated: after the reachable steady-state
trace spawn, spawn, tick, lock, tick, lock, block 2 (thread 1 takes the
mutex, thread 2 enrolls as a waiter, then the running thread 0 blocks
thread 2), thread 2 is simultaneously in the blocked set and in the
mutex-waiter set, so the four collections are not pairwise disjoint. -/
theorem c2_counterexample :
    Option.map
      (fun s => decide ((2 : Int) ∈ s.mgr.blocked ∧ (2 : Int) ∈ s.mgr.waiting_fot_mutex))
      (run [Op.spawn, Op.spawn, Op.tick, Op.lock, Op.tick, Op.lock, Op.block 2]) =
    some true := by
  decide

/-- Claim C2 (amended): in every reachable steady state, the ready queue and
the singleton of the current id are disjoint from each other and from both
the blocked set and the mutex-waiter set (the blocked set and the waiter set
themselves may intersect), and the union of the four equals the set of live
thread ids. -/
theorem c2_partition_invariant :
    ∀ (ops : List Op) (s : LibState), run ops = some s →
      s.mgr.curr_thread_id ∉ s.mgr.readyQueue ∧
      s.mgr.curr_thread_id ∉ s.mgr.blocked ∧
      s.mgr.curr_thread_id ∉ s.mgr.waiting_fot_mutex ∧
      (∀ x ∈ s.mgr.readyQueue, x ∉ s.mgr.blocked) ∧
      (∀ x ∈ s.mgr.readyQueue, x ∉ s.mgr.waiting_fot_mutex) ∧
      (∀ x, x ∈ s.mgr.alive ↔
        (x = s.mgr.curr_thread_id ∨ x ∈ s.mgr.readyQueue ∨ x ∈ s.mgr.blocked ∨
          x ∈ s.mgr.waiting_fot_mutex)) := by
  intro ops s hrun
  obtain ⟨hnd, hca, hcr, hcb, hcw, hrb, hrw, hra, hba, hwa, hav, hcov⟩ :=
    invHolds_run ops s hrun
  refine ⟨hcr, hcb, hcw, hrb, hrw, fun x => ⟨hcov x, ?_⟩⟩
  rintro (h | h | h | h)
  · exact h ▸ hca
  · exact hra x h
  · exact hba h
  · exact hwa h

/-- Witness for C2: the empty trace reaches the post-init state, where the
current id 0 is in neither the ready queue nor the blocked set. -/
theorem c2_partition_invariant_witness :
    libInit.mgr.curr_thread_id ∉ libInit.mgr.readyQueue ∧
    libInit.mgr.curr_thread_id ∉ libInit.mgr.blocked :=
  ⟨(c2_partition_invariant [] libInit rfl).1, (c2_partition_invariant [] libInit rfl).2.1⟩

/-- Claim C5: `uthread_mutex_lock` fails (returning -1) when the current
thread already holds the mutex, and `uthread_mutex_unlock` fails when the
mutex is unlocked or held by another thread; in both error cases the whole
library state (mutex and collection included) is unchanged; a successful
unlock clears `locked` and the holder and applies `advance_mutex_line`. -/
theorem c5_mutex_lock_unlock_errors (s : LibState) (hm : s.masked = false) :
    (s.mutex.locking_thread = s.mgr.curr_thread_id →
      uthread_mutex_lock s = ApiResult.ret FAILURE s) ∧
    (s.mutex.locked = false ∨ s.mutex.locking_thread ≠ s.mgr.curr_thread_id →
      uthread_mutex_unlock s = (FAILURE, s)) ∧
    (s.mutex.locked = true → s.mutex.locking_thread = s.mgr.curr_thread_id →
      uthread_mutex_unlock s = (SUCCESS,
        { s with
            mutex := { locked := false, locking_thread := -1 }
            mgr := ThreadsCollectionManager.advance_mutex_line s.mgr })) := by
  refine ⟨?_, ?_, ?_⟩
  · intro h
    unfold uthread_mutex_lock
    simp only [mask_time_signal]
    rw [if_pos h]
    rw [masked_false_self s hm]
  · intro h
    unfold uthread_mutex_unlock
    simp only [mask_time_signal]
    rw [if_pos h]
    rw [masked_false_self s hm]
  · intro hl he
    have hcon : ¬ (s.mutex.locked = false ∨
        s.mutex.locking_thread ≠ s.mgr.curr_thread_id) := by
      rintro (hc | hc)
      · rw [hl] at hc
        exact absurd hc (by simp)
      · exact hc he
    unfold uthread_mutex_unlock
    simp only [mask_time_signal]
    rw [if_neg hcon]
    rw [hm]

/-- Witness for C5: in `stateC5`, a re-lock by the holder fails with the
state unchanged, and an unlock by the holder clears the mutex and advances
the waiter line. -/
theorem c5_mutex_lock_unlock_errors_witness :
    uthread_mutex_lock stateC5 = ApiResult.ret FAILURE stateC5 ∧
    uthread_mutex_unlock stateC5 = (SUCCESS,
      { stateC5 with
          mutex := { locked := false, locking_thread := -1 }
          mgr := ThreadsCollectionManager.advance_mutex_line stateC5.mgr }) :=
  ⟨(c5_mutex_lock_unlock_errors stateC5 rfl).1 rfl,
   (c5_mutex_lock_unlock_errors stateC5 rfl).2.2 rfl rfl⟩

namespace ThreadsCollectionManager

theorem terminate_available (tid : Int) (c : ThreadsCollectionManager) :
    (terminate tid c).available_ids = insert tid c.available_ids := rfl

theorem bump_available (c : ThreadsCollectionManager) :
    (bump_current_quantums c).available_ids = c.available_ids := rfl

end ThreadsCollectionManager

/-- Claim C7: `uthread_spawn` fails with -1 when the free-id pool is empty
(leaving the state unchanged); otherwise it returns the minimum available id,
inserts a fresh record under it and appends it to the back of the ready
queue; and every successful `uthread_terminate tid` (direct or via a
self-switch) returns `tid` to the free pool, so the next spawn, taking the
pool minimum, prefers reused ids. -/
theorem c7_spawn_spec (s : LibState) :
    (s.mgr.available_ids = ∅ → uthread_spawn s = (FAILURE, s)) ∧
    (∀ h : s.mgr.available_ids.Nonempty,
      (uthread_spawn s).1 = s.mgr.available_ids.min' h ∧
      (∀ y ∈ s.mgr.available_ids, s.mgr.available_ids.min' h ≤ y) ∧
      (uthread_spawn s).2 =
        { s with mgr := { s.mgr with
            available_ids := s.mgr.available_ids.erase (s.mgr.available_ids.min' h)
            alive := insert (s.mgr.available_ids.min' h) s.mgr.alive
            quantums := Function.update s.mgr.quantums (s.mgr.available_ids.min' h) 0
            readyQueue := s.mgr.readyQueue ++ [s.mgr.available_ids.min' h] } }) ∧
    (∀ tid s', uthread_terminate tid s = ApiResult.ret SUCCESS s' →
      tid ∈ s'.mgr.available_ids) ∧
    (∀ tid s', uthread_terminate tid s = ApiResult.switched s' →
      tid ∈ s'.mgr.available_ids) := by
  refine ⟨?_, ?_, ?_, ?_⟩
  · intro he
    unfold uthread_spawn ThreadsCollectionManager.create_thread
    rw [dif_neg (by rw [he]; exact Finset.not_nonempty_empty)]
  · intro h
    refine ⟨?_, fun y hy => Finset.min'_le _ y hy, ?_⟩
    · unfold uthread_spawn ThreadsCollectionManager.create_thread
      rw [dif_pos h]
    · unfold uthread_spawn ThreadsCollectionManager.create_thread
      rw [dif_pos h]
  · intro tid s' hterm
    unfold uthread_terminate at hterm
    simp only [mask_time_signal] at hterm
    by_cases h0 : tid = 0
    · rw [if_pos h0] at hterm
      simp at hterm
    · rw [if_neg h0] at hterm
      by_cases h1 : tid ∉ s.mgr.alive
      · rw [if_pos h1] at hterm
        simp [FAILURE, SUCCESS] at hterm
      · rw [if_neg h1] at hterm
        by_cases h2 : tid = s.mgr.curr_thread_id
        · rw [if_pos h2] at hterm
          unfold switch_threads_mid_quantum at hterm
          rcases hly : s.mgr.readyQueue with _ | ⟨h, t⟩
          · rw [switch_threads_nil _ { mgr := s.mgr, mutex := s.mutex, total_quantums := s.total_quantums, masked := true } hly] at hterm
            simp at hterm
          · rw [switch_threads_cons _ { mgr := s.mgr, mutex := s.mutex, total_quantums := s.total_quantums, masked := true } h t hly] at hterm
            simp at hterm
        · rw [if_neg h2] at hterm
          simp only [ApiResult.ret.injEq] at hterm
          obtain ⟨-, hs'⟩ := hterm
          subst hs'
          show tid ∈ (delete_thread tid
            { mgr := s.mgr, mutex := s.mutex, total_quantums := s.total_quantums,
              masked := true }).mgr.available_ids
          rw [delete_thread_mgr]
          split
          · rw [ThreadsCollectionManager.advance_mutex_available,
                ThreadsCollectionManager.terminate_available]
            exact Finset.mem_insert_self _ _
          · rw [ThreadsCollectionManager.terminate_available]
            exact Finset.mem_insert_self _ _
  · intro tid s' hterm
    unfold uthread_terminate at hterm
    simp only [mask_time_signal] at hterm
    by_cases h0 : tid = 0
    · rw [if_pos h0] at hterm
      simp at hterm
    · rw [if_neg h0] at hterm
      by_cases h1 : tid ∉ s.mgr.alive
      · rw [if_pos h1] at hterm
        simp at hterm
      · rw [if_neg h1] at hterm
        by_cases h2 : tid = s.mgr.curr_thread_id
        · rw [if_pos h2] at hterm
          unfold switch_threads_mid_quantum at hterm
          rcases hly : s.mgr.readyQueue with _ | ⟨h, t⟩
          · rw [switch_threads_nil _ { mgr := s.mgr, mutex := s.mutex, total_quantums := s.total_quantums, masked := true } hly] at hterm
            simp at hterm
          · rw [switch_threads_cons _ { mgr := s.mgr, mutex := s.mutex, total_quantums := s.total_quantums, masked := true } h t hly] at hterm
            simp only [ApiResult.switched.injEq] at hterm
            subst hterm
            dsimp only [switch_post]
            rw [ThreadsCollectionManager.bump_available, delete_thread_mgr]
            split
            · rw [ThreadsCollectionManager.advance_mutex_available,
                  ThreadsCollectionManager.terminate_available]
              exact Finset.mem_insert_self _ _
            · rw [ThreadsCollectionManager.terminate_available]
              exact Finset.mem_insert_self _ _
        · rw [if_neg h2] at hterm
          simp at hterm

/-- Witness for C7: at the post-init state the pool {1, …, 99} is non-empty
and spawn returns its minimum, 1. -/
theorem c7_spawn_spec_witness :
    (uthread_spawn libInit).1 =
      libInit.mgr.available_ids.min' (by decide) :=
  ((c7_spawn_spec libInit).2.1 (by decide)).1

/-- Claim C9: terminating a live thread that holds the mutex releases the
mutex (`locked = false`, holder -1) and applies `advance_mutex_line`, both
when the terminated thread is not the current one (`ret 0`) and when a thread
terminates itself (`switched`, with the deletion running after the ready
front was popped as the new current thread). -/
theorem c9_terminate_holder_releases (s : LibState) (tid : Int)
    (hlive : tid ∈ s.mgr.alive) (hold : s.mutex.locking_thread = tid) :
    (∀ s', uthread_terminate tid s = ApiResult.ret SUCCESS s' →
      s'.mutex.locked = false ∧ s'.mutex.locking_thread = -1 ∧
      s'.mgr = ThreadsCollectionManager.advance_mutex_line
        (ThreadsCollectionManager.terminate tid s.mgr)) ∧
    (∀ s' h t, s.mgr.readyQueue = h :: t →
      uthread_terminate tid s = ApiResult.switched s' →
      s'.mutex.locked = false ∧ s'.mutex.locking_thread = -1 ∧
      s'.mgr = ThreadsCollectionManager.bump_current_quantums
        (ThreadsCollectionManager.advance_mutex_line
          (ThreadsCollectionManager.terminate tid
            { s.mgr with curr_thread_id := h, readyQueue := t }))) := by
  constructor
  · intro s' hterm
    unfold uthread_terminate at hterm
    simp only [mask_time_signal] at hterm
    by_cases h0 : tid = 0
    · rw [if_pos h0] at hterm
      simp at hterm
    · rw [if_neg h0] at hterm
      rw [if_neg (not_not_intro hlive)] at hterm
      by_cases h2 : tid = s.mgr.curr_thread_id
      · rw [if_pos h2] at hterm
        unfold switch_threads_mid_quantum at hterm
        rcases hly : s.mgr.readyQueue with _ | ⟨h, t⟩
        · rw [switch_threads_nil _ { mgr := s.mgr, mutex := s.mutex, total_quantums := s.total_quantums, masked := true } hly] at hterm
          simp at hterm
        · rw [switch_threads_cons _ { mgr := s.mgr, mutex := s.mutex, total_quantums := s.total_quantums, masked := true } h t hly] at hterm
          simp at hterm
      · rw [if_neg h2] at hterm
        simp only [ApiResult.ret.injEq] at hterm
        obtain ⟨-, hs'⟩ := hterm
        subst hs'
        have hmut : (delete_thread tid
            { mgr := s.mgr, mutex := s.mutex, total_quantums := s.total_quantums,
              masked := true }).mutex =
            { locked := false, locking_thread := -1 } := by
          rw [delete_thread_mutex]
          rw [if_pos hold]
        have hmgr : (delete_thread tid
            { mgr := s.mgr, mutex := s.mutex, total_quantums := s.total_quantums,
              masked := true }).mgr =
            ThreadsCollectionManager.advance_mutex_line
              (ThreadsCollectionManager.terminate tid s.mgr) := by
          rw [delete_thread_mgr]
          rw [if_pos hold]
        refine ⟨?_, ?_, ?_⟩
        · show (delete_thread tid
            { mgr := s.mgr, mutex := s.mutex, total_quantums := s.total_quantums,
              masked := true }).mutex.locked = false
          rw [hmut]
        · show (delete_thread tid
            { mgr := s.mgr, mutex := s.mutex, total_quantums := s.total_quantums,
              masked := true }).mutex.locking_thread = -1
          rw [hmut]
        · show (delete_thread tid
            { mgr := s.mgr, mutex := s.mutex, total_quantums := s.total_quantums,
              masked := true }).mgr = _
          rw [hmgr]
  · intro s' h t hly hterm
    unfold uthread_terminate at hterm
    simp only [mask_time_signal] at hterm
    by_cases h0 : tid = 0
    · rw [if_pos h0] at hterm
      simp at hterm
    · rw [if_neg h0] at hterm
      rw [if_neg (not_not_intro hlive)] at hterm
      by_cases h2 : tid = s.mgr.curr_thread_id
      · rw [if_pos h2] at hterm
        unfold switch_threads_mid_quantum at hterm
        rw [switch_threads_cons _ { mgr := s.mgr, mutex := s.mutex, total_quantums := s.total_quantums, masked := true } h t hly] at hterm
        simp only [ApiResult.switched.injEq] at hterm
        subst hterm
        dsimp only [switch_post]
        have hmut : (delete_thread tid
            { mgr := { s.mgr with curr_thread_id := h, readyQueue := t },
              mutex := s.mutex, total_quantums := s.total_quantums + 1,
              masked := true }).mutex =
            { locked := false, locking_thread := -1 } := by
          rw [delete_thread_mutex]
          rw [if_pos hold]
        have hmgr : (delete_thread tid
            { mgr := { s.mgr with curr_thread_id := h, readyQueue := t },
              mutex := s.mutex, total_quantums := s.total_quantums + 1,
              masked := true }).mgr =
            ThreadsCollectionManager.advance_mutex_line
              (ThreadsCollectionManager.terminate tid
                { s.mgr with curr_thread_id := h, readyQueue := t }) := by
          rw [delete_thread_mgr]
          rw [if_pos hold]
        refine ⟨?_, ?_, ?_⟩
        · show (delete_thread tid _).mutex.locked = false
          rw [hmut]
        · show (delete_thread tid _).mutex.locking_thread = -1
          rw [hmut]
        · show ThreadsCollectionManager.bump_current_quantums (delete_thread tid _).mgr = _
          rw [hmgr]
      · rw [if_neg h2] at hterm
        simp at hterm

/-- Witness for C9: terminating the mutex holder 1 from the main thread in
`stateC9` returns 0, leaves the mutex released, and applies
`advance_mutex_line` to the post-deletion collection. -/
theorem c9_terminate_holder_releases_witness :
    (1 : Int) ∈ stateC9.mgr.alive ∧
    stateC9.mutex.locking_thread = 1 ∧
    ((mask_time_signal false
        (delete_thread 1 (mask_time_signal true stateC9))).mutex.locked = false ∧
      (mask_time_signal false
        (delete_thread 1 (mask_time_signal true stateC9))).mutex.locking_thread = -1 ∧
      (mask_time_signal false
        (delete_thread 1 (mask_time_signal true stateC9))).mgr =
        ThreadsCollectionManager.advance_mutex_line
          (ThreadsCollectionManager.terminate 1 stateC9.mgr)) :=
  ⟨by decide, rfl,
    (c9_terminate_holder_releases stateC9 1 (by decide) rfl).1 _ rfl⟩

theorem uthread_resume_dead (s : LibState) (tid : Int)
    (ha : tid ∉ s.mgr.alive) (hm : s.masked = false) :
    uthread_resume tid s = (FAILURE, s) := by
  unfold uthread_resume ThreadsCollectionManager.resume
  simp only [mask_time_signal]
  rw [if_neg ha]
  dsimp only []
  rw [masked_false_self s hm]

theorem uthread_resume_live (s : LibState) (tid : Int) (ha : tid ∈ s.mgr.alive) :
    uthread_resume tid s =
      (SUCCESS, { s with
          mgr := ThreadsCollectionManager.set_as_ready tid
            { s.mgr with blocked := s.mgr.blocked.erase tid }
          masked := false }) := by
  unfold uthread_resume ThreadsCollectionManager.resume
  simp only [mask_time_signal]
  rw [if_pos ha]

/-- Claim C6: `uthread_resume tid` returns -1 exactly when no thread `tid`
exists (leaving the state unchanged); otherwise it returns 0, erases `tid`
from the blocked set, never touches the waiter set, and appends `tid` to the
ready queue exactly when `tid` is not the current thread and is in neither
the ready queue nor the waiter set; resuming a live thread that is neither
blocked nor waiting changes nothing at all. -/
theorem c6_resume_spec (s : LibState) (tid : Int) (hinv : InvHolds s)
    (hm : s.masked = false) :
    ((uthread_resume tid s).1 = FAILURE ↔ tid ∉ s.mgr.alive) ∧
    (tid ∉ s.mgr.alive → uthread_resume tid s = (FAILURE, s)) ∧
    (tid ∈ s.mgr.alive →
      (uthread_resume tid s).1 = SUCCESS ∧
      (uthread_resume tid s).2.mgr.blocked = s.mgr.blocked.erase tid ∧
      (uthread_resume tid s).2.mgr.waiting_fot_mutex = s.mgr.waiting_fot_mutex ∧
      (if tid ≠ s.mgr.curr_thread_id ∧ tid ∉ s.mgr.readyQueue ∧
          tid ∉ s.mgr.waiting_fot_mutex then
        (uthread_resume tid s).2.mgr.readyQueue = s.mgr.readyQueue ++ [tid]
      else
        (uthread_resume tid s).2.mgr.readyQueue = s.mgr.readyQueue)) ∧
    (tid ∈ s.mgr.alive → tid ∉ s.mgr.blocked → tid ∉ s.mgr.waiting_fot_mutex →
      uthread_resume tid s = (SUCCESS, s)) := by
  refine ⟨?_, ?_, ?_, ?_⟩
  · by_cases ha : tid ∈ s.mgr.alive
    · rw [uthread_resume_live s tid ha]
      simp [SUCCESS, FAILURE, ha]
    · rw [uthread_resume_dead s tid ha hm]
      simp [ha]
  · intro ha
    exact uthread_resume_dead s tid ha hm
  · intro ha
    rw [uthread_resume_live s tid ha]
    refine ⟨rfl, ?_, ?_, ?_⟩
    · show (ThreadsCollectionManager.set_as_ready tid
        { s.mgr with blocked := s.mgr.blocked.erase tid }).blocked = _
      rw [ThreadsCollectionManager.set_as_ready_blocked]
    · show (ThreadsCollectionManager.set_as_ready tid
        { s.mgr with blocked := s.mgr.blocked.erase tid }).waiting_fot_mutex = _
      rw [ThreadsCollectionManager.set_as_ready_waiting]
    · split
      · rename_i hg
        obtain ⟨hg1, hg2, hg3⟩ := hg
        show (ThreadsCollectionManager.set_as_ready tid
          { s.mgr with blocked := s.mgr.blocked.erase tid }).readyQueue = _
        rw [ThreadsCollectionManager.set_as_ready_pos tid
          { s.mgr with blocked := s.mgr.blocked.erase tid }
          ⟨fun he => hg1 he.symm, hg2, hg3, Finset.not_mem_erase _ _⟩]
      · rename_i hg
        show (ThreadsCollectionManager.set_as_ready tid
          { s.mgr with blocked := s.mgr.blocked.erase tid }).readyQueue = _
        rw [ThreadsCollectionManager.set_as_ready_neg tid
          { s.mgr with blocked := s.mgr.blocked.erase tid }
          (fun hc => hg ⟨fun he => hc.1 he.symm, hc.2.1, hc.2.2.1⟩)]
  · intro ha hnb hnw
    obtain ⟨hnd, hca, hcr, hcb, hcw, hrb, hrw, hra, hba, hwa, hav, hcov⟩ := hinv
    have hcur : tid = s.mgr.curr_thread_id ∨ tid ∈ s.mgr.readyQueue := by
      rcases hcov tid ha with hc | hc | hc | hc
      · exact Or.inl hc
      · exact Or.inr hc
      · exact absurd hc hnb
      · exact absurd hc hnw
    rw [uthread_resume_live s tid ha]
    rw [Finset.erase_eq_of_not_mem hnb]
    have hgneg : ¬ (({ s.mgr with blocked := s.mgr.blocked } :
        ThreadsCollectionManager).curr_thread_id ≠ tid ∧
        tid ∉ ({ s.mgr with blocked := s.mgr.blocked } :
          ThreadsCollectionManager).readyQueue ∧
        tid ∉ ({ s.mgr with blocked := s.mgr.blocked} :
          ThreadsCollectionManager).waiting_fot_mutex ∧
        tid ∉ ({ s.mgr with blocked := s.mgr.blocked } :
          ThreadsCollectionManager).blocked) := by
      rintro ⟨g1, g2, g3, g4⟩
      rcases hcur with hc | hc
      · exact g1 hc.symm
      · exact g2 hc
    rw [ThreadsCollectionManager.set_as_ready_neg tid _ hgneg]
    rcases s with ⟨⟨cid, al, qf, rq, wm, av, bl⟩, mu, tq, mk⟩
    dsimp only [] at hm
    subst hm
    rfl

/-- Witness for C6: in the post-init state, resuming the unknown id 5 fails
with no state change, and resuming the running main thread 0 (live, neither
blocked nor waiting) returns 0 with no state change. -/
theorem c6_resume_spec_witness :
    uthread_resume 5 libInit = (FAILURE, libInit) ∧
    uthread_resume 0 libInit = (SUCCESS, libInit) :=
  ⟨(c6_resume_spec libInit 5 invHolds_libInit rfl).2.1 (by decide),
   (c6_resume_spec libInit 0 invHolds_libInit rfl).2.2.2 (by decide) (by decide) (by decide)⟩

namespace ThreadsCollectionManager

theorem bump_quantums_char (c : ThreadsCollectionManager) (tid : Int)
    (hne : (bump_current_quantums c).quantums tid ≠ c.quantums tid) :
    tid = c.curr_thread_id ∧
      (bump_current_quantums c).quantums tid = c.quantums tid + 1 := by
  by_cases ht : tid = c.curr_thread_id
  · subst ht
    exact ⟨rfl, Function.update_same _ _ _⟩
  · exact absurd (Function.update_noteq ht _ _) hne

theorem resume_quantums (tid : Int) (c : ThreadsCollectionManager) :
    (resume tid c).2.quantums = c.quantums := by
  unfold resume
  split
  · simp only []
    rw [set_as_ready_quantums]
  · rfl

end ThreadsCollectionManager

/-- Claim C10: a thread freshly created by `uthread_spawn` has its `quantums`
counter initialized to 0 (`uthread_get_quantums` on its id returns 0 before it
is ever scheduled), and no step changes a live thread's counter unless that
thread is the running thread after the step, in which case the counter grows
by exactly one. -/
theorem c10_fresh_quantums_zero (s : LibState) (hinv : InvHolds s) :
    (∀ h : s.mgr.available_ids.Nonempty,
      (uthread_get_quantums (s.mgr.available_ids.min' h) (uthread_spawn s).2).1 = 0) ∧
    (∀ op s', step op s = some s' →
      ∀ tid ∈ s.mgr.alive, s'.mgr.quantums tid ≠ s.mgr.quantums tid →
        tid = s'.mgr.curr_thread_id ∧
        s'.mgr.quantums tid = s.mgr.quantums tid + 1) := by
  obtain ⟨hnd, hca, hcr, hcb, hcw, hrb, hrw, hra, hba, hwa, hav, hcov⟩ := hinv
  constructor
  · intro h
    unfold uthread_spawn ThreadsCollectionManager.create_thread
    rw [dif_pos h]
    unfold uthread_get_quantums
    simp only [mask_time_signal]
    rw [if_neg (not_not_intro (Finset.mem_insert_self _ _))]
    simp [Function.update_same]
  · intro op s' hstep tid hta hne
    cases op with
    | tick =>
      simp only [step] at hstep
      unfold time_sig_handler at hstep
      split at hstep
      · rw [Option.some.injEq] at hstep
        subst hstep
        exact ThreadsCollectionManager.bump_quantums_char s.mgr tid hne
      · rename_i hw
        have hq : s.mgr.readyQueue ≠ [] := by
          simpa [ThreadsCollectionManager.is_someone_waiting] using hw
        rcases hly : s.mgr.readyQueue with _ | ⟨h, t⟩
        · exact absurd hly hq
        · rw [switch_threads_cons _ s h t hly] at hstep
          rw [Option.some.injEq] at hstep
          subst hstep
          dsimp only [switch_post]
          have hXq : (ThreadsCollectionManager.set_as_ready s.mgr.curr_thread_id
              { s.mgr with curr_thread_id := h, readyQueue := t }).quantums =
              s.mgr.quantums := by
            rw [ThreadsCollectionManager.set_as_ready_quantums]
          have hne' : (ThreadsCollectionManager.bump_current_quantums
              (ThreadsCollectionManager.set_as_ready s.mgr.curr_thread_id
                { s.mgr with curr_thread_id := h, readyQueue := t })).quantums tid ≠
              (ThreadsCollectionManager.set_as_ready s.mgr.curr_thread_id
                { s.mgr with curr_thread_id := h, readyQueue := t }).quantums tid :=
            fun he => hne (he.trans (congrFun hXq tid))
          obtain ⟨h1, h2⟩ := ThreadsCollectionManager.bump_quantums_char _ tid hne'
          exact ⟨h1, h2.trans (congrArg (fun n => n + 1) (congrFun hXq tid))⟩
    | spawn =>
      simp only [step] at hstep
      unfold uthread_spawn ThreadsCollectionManager.create_thread at hstep
      by_cases h : s.mgr.available_ids.Nonempty
      · rw [dif_pos h] at hstep
        rw [Option.some.injEq] at hstep
        subst hstep
        have htm : tid ≠ s.mgr.available_ids.min' h :=
          fun he => hav _ (Finset.min'_mem _ h) (he ▸ hta)
        exact absurd (Function.update_noteq htm _ _) hne
      · rw [dif_neg h] at hstep
        rw [Option.some.injEq] at hstep
        subst hstep
        exact absurd rfl hne
    | terminate tid2 =>
      simp only [step] at hstep
      unfold uthread_terminate at hstep
      simp only [mask_time_signal] at hstep
      by_cases h0 : tid2 = 0
      · rw [if_pos h0] at hstep
        simp at hstep
      · rw [if_neg h0] at hstep
        by_cases h1 : tid2 ∉ s.mgr.alive
        · rw [if_pos h1] at hstep
          simp only [Option.some.injEq] at hstep
          subst hstep
          exact absurd rfl hne
        · rw [if_neg h1] at hstep
          by_cases h2 : tid2 = s.mgr.curr_thread_id
          · rw [if_pos h2] at hstep
            unfold switch_threads_mid_quantum at hstep
            rcases hly : s.mgr.readyQueue with _ | ⟨h, t⟩
            · rw [switch_threads_nil _ { mgr := s.mgr, mutex := s.mutex, total_quantums := s.total_quantums, masked := true } hly] at hstep
              simp at hstep
            · rw [switch_threads_cons _ { mgr := s.mgr, mutex := s.mutex, total_quantums := s.total_quantums, masked := true } h t hly] at hstep
              simp only [Option.some.injEq] at hstep
              subst hstep
              dsimp only [switch_post]
              have hXq : (delete_thread tid2
                  { mgr := { s.mgr with curr_thread_id := h, readyQueue := t },
                    mutex := s.mutex, total_quantums := s.total_quantums + 1,
                    masked := true }).mgr.quantums = s.mgr.quantums :=
                delete_thread_quantums tid2 _
              have hne' : (ThreadsCollectionManager.bump_current_quantums
                  (delete_thread tid2
                    { mgr := { s.mgr with curr_thread_id := h, readyQueue := t },
                      mutex := s.mutex, total_quantums := s.total_quantums + 1,
                      masked := true }).mgr).quantums tid ≠
                  (delete_thread tid2
                    { mgr := { s.mgr with curr_thread_id := h, readyQueue := t },
                      mutex := s.mutex, total_quantums := s.total_quantums + 1,
                      masked := true }).mgr.quantums tid :=
                fun he => hne (he.trans (congrFun hXq tid))
              obtain ⟨h1, h2⟩ := ThreadsCollectionManager.bump_quantums_char _ tid hne'
              exact ⟨h1, h2.trans (congrArg (fun n => n + 1) (congrFun hXq tid))⟩
          · rw [if_neg h2] at hstep
            simp only [Option.some.injEq] at hstep
            subst hstep
            have hXq : (delete_thread tid2
                { mgr := s.mgr, mutex := s.mutex, total_quantums := s.total_quantums,
                  masked := true }).mgr.quantums = s.mgr.quantums :=
              delete_thread_quantums tid2 _
            exact absurd (congrFun hXq tid) hne
    | block tid2 =>
      simp only [step] at hstep
      unfold uthread_block at hstep
      simp only [mask_time_signal] at hstep
      by_cases h0 : tid2 = 0 ∨ tid2 ∉ s.mgr.alive
      · rw [if_pos h0] at hstep
        simp only [Option.some.injEq] at hstep
        subst hstep
        exact absurd rfl hne
      · rw [if_neg h0] at hstep
        by_cases h2 : s.mgr.curr_thread_id = tid2
        · rw [if_pos h2] at hstep
          unfold switch_threads_mid_quantum at hstep
          rcases hly : s.mgr.readyQueue with _ | ⟨h, t⟩
          · rw [switch_threads_nil _ { mgr := s.mgr, mutex := s.mutex, total_quantums := s.total_quantums, masked := true } hly] at hstep
            simp at hstep
          · rw [switch_threads_cons _ { mgr := s.mgr, mutex := s.mutex, total_quantums := s.total_quantums, masked := true } h t hly] at hstep
            simp only [Option.some.injEq] at hstep
            subst hstep
            dsimp only [switch_post] at hne ⊢
            obtain ⟨h1, h2⟩ := ThreadsCollectionManager.bump_quantums_char _ tid hne
            exact ⟨h1, h2⟩
        · rw [if_neg h2] at hstep
          simp only [Option.some.injEq] at hstep
          subst hstep
          exact absurd rfl hne
    | resume tid2 =>
      simp only [step] at hstep
      unfold uthread_resume at hstep
      simp only [mask_time_signal] at hstep
      simp only [Option.some.injEq] at hstep
      subst hstep
      exact absurd
        (congrFun (ThreadsCollectionManager.resume_quantums tid2 s.mgr) tid) hne
    | lock =>
      simp only [step] at hstep
      unfold uthread_mutex_lock at hstep
      simp only [mask_time_signal] at hstep
      by_cases h0 : s.mutex.locking_thread = s.mgr.curr_thread_id
      · rw [if_pos h0] at hstep
        simp only [Option.some.injEq] at hstep
        subst hstep
        exact absurd rfl hne
      · rw [if_neg h0] at hstep
        by_cases h1 : s.mutex.locked
        · rw [if_pos h1] at hstep
          unfold switch_threads_mid_quantum at hstep
          rcases hly : s.mgr.readyQueue with _ | ⟨h, t⟩
          · rw [switch_threads_nil _ { mgr := s.mgr, mutex := s.mutex, total_quantums := s.total_quantums, masked := true } hly] at hstep
            simp at hstep
          · rw [switch_threads_cons _ { mgr := s.mgr, mutex := s.mutex, total_quantums := s.total_quantums, masked := true } h t hly] at hstep
            simp only [Option.some.injEq] at hstep
            subst hstep
            dsimp only [switch_post] at hne ⊢
            obtain ⟨h1, h2⟩ := ThreadsCollectionManager.bump_quantums_char _ tid hne
            exact ⟨h1, h2⟩
        · rw [if_neg h1] at hstep
          simp only [Option.some.injEq] at hstep
          subst hstep
          exact absurd rfl hne
    | unlock =>
      simp only [step] at hstep
      unfold uthread_mutex_unlock at hstep
      simp only [mask_time_signal] at hstep
      by_cases h0 : s.mutex.locked = false ∨ s.mutex.locking_thread ≠ s.mgr.curr_thread_id
      · rw [if_pos h0] at hstep
        simp only [Option.some.injEq] at hstep
        subst hstep
        exact absurd rfl hne
      · rw [if_neg h0] at hstep
        simp only [Option.some.injEq] at hstep
        subst hstep
        exact absurd
          (congrFun (ThreadsCollectionManager.advance_mutex_quantums s.mgr) tid) hne

/-- Witness for C10: in the post-init state the lowest free id is 1, and
`uthread_get_quantums 1` right after `uthread_spawn` returns 0. -/
theorem c10_fresh_quantums_zero_witness :
    (uthread_get_quantums (libInit.mgr.available_ids.min' (by decide))
      (uthread_spawn libInit).2).1 = 0 :=
  (c10_fresh_quantums_zero libInit invHolds_libInit).1 (by decide)
